import Mathlib

/-!
Verification development for the EstimNetDirected python demo
(pythonDemo/Digraph.py, pythonDemo/changeStatisticsDirected.py,
pythonDemo/EstimNetDirectedSimpleDemo.py).

The graph store is embedded shallowly: the python dict-of-dict adjacency
structures become Bool-valued functions, the numpy two-path matrices become
Int-valued functions (they only ever hold integers), and the float
arithmetic of the statistics and the estimation algorithms is carried out
over the rationals (lambda0 = 2, so every change statistic is rational).
The uniform random draws of the sampler are supplied as an input stream;
the outcome of the float comparison u < exp(total) is supplied as the
Boolean component of that stream, since IEEE exp is outside this embedding.
-/

namespace EstimNet

/-- Pointwise update of a Bool-valued adjacency function at one cell
(dict insertion / deletion in Digraph.py). -/
def fset (f : ℕ → ℕ → Bool) (i j : ℕ) (b : Bool) : ℕ → ℕ → Bool :=
  fun a c => if a = i ∧ c = j then b else f a c

/-- Pointwise additive update of an Int-valued matrix at one cell
(the numpy in-place M[a,b] += d of Digraph.updateTwoPathMatrices). -/
def mset (M : ℕ → ℕ → ℤ) (a b : ℕ) (d : ℤ) : ℕ → ℕ → ℤ :=
  fun x y => if x = a ∧ y = b then M x y + d else M x y

/-- The directed graph state of Digraph.py: node count, out-adjacency G,
reversed adjacency Grev, the three two-path matrices, and the optional
attribute tables (binattr / catattr, absent tables modelled as all-zero). -/
@[ext]
structure Digraph where
  n : ℕ
  G : ℕ → ℕ → Bool
  Grev : ℕ → ℕ → Bool
  OutTwoPathMatrix : ℕ → ℕ → ℤ
  InTwoPathMatrix : ℕ → ℕ → ℤ
  MixTwoPathMatrix : ℕ → ℕ → ℤ
  binattr : ℕ → ℤ
  catattr : ℕ → ℤ

namespace Digraph

/-- Digraph.numNodes -/
def numNodes (g : Digraph) : ℕ := g.n

/-- Digraph.isArc: True iff arc i -> j is in the digraph. -/
def isArc (g : Digraph) (i j : ℕ) : Bool := g.G i j

/-- Digraph.outdegree: len(G[i]); the dict keys of reachable states are
exactly the out-neighbours in 0..n-1. -/
def outdegree (g : Digraph) (i : ℕ) : ℕ :=
  ((Finset.range g.n).filter (fun j => g.G i j = true)).card

/-- Digraph.indegree: len(Grev[i]). -/
def indegree (g : Digraph) (i : ℕ) : ℕ :=
  ((Finset.range g.n).filter (fun j => g.Grev i j = true)).card

/-- Loop body of Digraph.updateTwoPathMatrices for one node v: the four
conditional in-place matrix increments, guarded by the continue for
v = i or v = j.  Arc existence is read from the adjacency of the state
being folded, which the loop never changes. -/
def twoPathStep (i j : ℕ) (incval : ℤ) (g : Digraph) (v : ℕ) : Digraph :=
  if v = i ∨ v = j then g
  else
    let g1 := if isArc g i v then
        { g with OutTwoPathMatrix := mset (mset g.OutTwoPathMatrix v j incval) j v incval }
      else g
    let g2 := if isArc g1 v j then
        { g1 with InTwoPathMatrix := mset (mset g1.InTwoPathMatrix v i incval) i v incval }
      else g1
    let g3 := { g2 with
      MixTwoPathMatrix := mset g2.MixTwoPathMatrix v j
        ((if isArc g2 v i then (1:ℤ) else 0) * incval) }
    { g3 with
      MixTwoPathMatrix := mset g3.MixTwoPathMatrix i v
        ((if isArc g3 j v then (1:ℤ) else 0) * incval) }

/-- Digraph.updateTwoPathMatrices: for v in xrange(n) run the loop body,
with incval = 1 for an add and -1 for a delete. -/
def updateTwoPathMatrices (g : Digraph) (i j : ℕ) (isAdd : Bool) : Digraph :=
  (List.range g.n).foldl (twoPathStep i j (if isAdd then 1 else -1)) g

/-- Digraph.insertArc: G[i][j] = 1; Grev[j][i] = 1; then update the
two-path matrices with isAdd = True (adjacency is mutated first, so the
update's arc tests see the post-insert graph). -/
def insertArc (g : Digraph) (i j : ℕ) : Digraph :=
  updateTwoPathMatrices
    { g with G := fset g.G i j true, Grev := fset g.Grev j i true } i j true

/-- Digraph.removeArc: G[i].pop(j); Grev[j].pop(i); then update the
two-path matrices with isAdd = False (adjacency is mutated first). -/
def removeArc (g : Digraph) (i j : ℕ) : Digraph :=
  updateTwoPathMatrices
    { g with G := fset g.G i j false, Grev := fset g.Grev j i false } i j false

/-- Digraph.removeArc with the failure path made explicit: G[i].pop(j)
raises KeyError when arc i->j is absent, before anything is mutated, and
Grev[j].pop(i) raises after only G has been mutated.  The error value
carries the state as it stood when the exception was raised. -/
def removeArcE (g : Digraph) (i j : ℕ) : Except (String × Digraph) Digraph :=
  if g.G i j = true then
    let g1 := { g with G := fset g.G i j false }
    if g1.Grev j i = true then
      let g2 := { g1 with Grev := fset g1.Grev j i false }
      Except.ok (updateTwoPathMatrices g2 i j false)
    else Except.error ("KeyError", g1)
  else Except.error ("KeyError", g)

/-- The empty digraph on n nodes built at the top of Digraph.init:
empty adjacency dicts and all-zero matrices; attribute tables default
to zero (no attribute file loaded). -/
def emptyDigraph (n : ℕ) : Digraph where
  n := n
  G := fun _ _ => false
  Grev := fun _ _ => false
  OutTwoPathMatrix := fun _ _ => 0
  InTwoPathMatrix := fun _ _ => 0
  MixTwoPathMatrix := fun _ _ => 0
  binattr := fun _ => 0
  catattr := fun _ => 0

/-- One arc line of the reading loop of Digraph.init: the line holds two
1-based integer indices (i, j); it is asserted to satisfy 1 <= i <= n and
1 <= j <= n (an AssertionError is fatal), and then insertArc(i-1, j-1) is
performed.  No other condition is checked. -/
def loadStep (n : ℕ) (g : Digraph) (p : ℤ × ℤ) : Except String Digraph :=
  if 1 ≤ p.1 ∧ p.1 ≤ (n : ℤ) ∧ 1 ≤ p.2 ∧ p.2 ≤ (n : ℤ) then
    Except.ok (insertArc g (p.1 - 1).toNat (p.2 - 1).toNat)
  else Except.error "AssertionError"

/-- The arc-reading loop of Digraph.init: process each arc line in order,
starting from the empty digraph on n nodes. -/
def loadArcs (n : ℕ) (lines : List (ℤ × ℤ)) : Except String Digraph :=
  lines.foldlM (loadStep n) (emptyDigraph n)

/-- Whether arc a->b is present in the graph loaded from the given arc
lines (false when loading fails with an AssertionError). -/
def arcInLoaded (n : ℕ) (lines : List (ℤ × ℤ)) (a b : ℕ) : Bool :=
  match loadArcs n lines with
  | Except.ok g => g.G a b
  | Except.error _ => false

/-- Whether loading the given arc lines completes without an assertion
failure. -/
def loadSucceeds (n : ℕ) (lines : List (ℤ × ℤ)) : Bool :=
  match loadArcs n lines with
  | Except.ok _ => true
  | Except.error _ => false

/-- Number of nodes w (in 0..n-1) with arcs w->u and w->v: the common
in-neighbour (out-two-star centre) count of u and v. -/
def countCommonInNbr (g : Digraph) (u v : ℕ) : ℤ :=
  ∑ w ∈ Finset.range g.n, (if g.G w u = true ∧ g.G w v = true then (1:ℤ) else 0)

/-- Number of nodes w (in 0..n-1) with arcs u->w and v->w: the common
out-neighbour (in-two-star centre) count of u and v. -/
def countCommonOutNbr (g : Digraph) (u v : ℕ) : ℤ :=
  ∑ w ∈ Finset.range g.n, (if g.G u w = true ∧ g.G v w = true then (1:ℤ) else 0)

/-- Number of nodes w (in 0..n-1) with arcs u->w and w->v: the directed
(mixed) two-path count from u to v. -/
def countMixedTwoPath (g : Digraph) (u v : ℕ) : ℤ :=
  ∑ w ∈ Finset.range g.n, (if g.G u w = true ∧ g.G w v = true then (1:ℤ) else 0)

/-- Structural well-formedness of a reachable graph state: every arc joins
two distinct nodes inside 0..n-1, and Grev is the transpose of G. -/
def wfDigraph (g : Digraph) : Prop :=
  (∀ a b, g.G a b = true → a < g.n ∧ b < g.n ∧ a ≠ b) ∧
  (∀ a b, g.Grev a b = g.G b a)

/-- The maintained two-path matrices agree, at every off-diagonal cell,
with the counts recomputed from scratch from the adjacency:
OutTwoPathMatrix[u,v] is the common in-neighbour count of u and v,
InTwoPathMatrix[u,v] the common out-neighbour count, and
MixTwoPathMatrix[u,v] the directed two-path count from u to v. -/
def matricesCorrect (g : Digraph) : Prop :=
  ∀ u < g.n, ∀ v < g.n, u ≠ v →
    g.OutTwoPathMatrix u v = countCommonInNbr g u v ∧
    g.InTwoPathMatrix u v = countCommonOutNbr g u v ∧
    g.MixTwoPathMatrix u v = countMixedTwoPath g u v

end Digraph

/-!
Change statistics (changeStatisticsDirected.py).  Each function takes the
graph and the candidate arc (i, j) and returns the change statistic for
adding the arc; with lambda0 = 2 every value is rational.  The python
iteration over dict keys becomes summation over the out- and in-neighbours
inside 0..n-1 (order is irrelevant: addition commutes), and the continue
guards become zero summands.
-/

/-- Decay factor for the alternating statistics (lambda0 = 2.0). -/
def lambda0 : ℚ := 2

/-- changeArc: change statistic for Arc. -/
def changeArc (_g : Digraph) (_i _j : ℕ) : ℚ := 1

/-- changeReciprocity: change statistic for Reciprocity. -/
def changeReciprocity (g : Digraph) (i j : ℕ) : ℚ :=
  if Digraph.isArc g j i then 1 else 0

/-- changeAltInStars: alternating k-in-stars (popularity spread, AinS). -/
def changeAltInStars (g : Digraph) (_i j : ℕ) : ℚ :=
  lambda0 * (1 - (1 - 1/lambda0) ^ Digraph.indegree g j)

/-- changeAltOutStars: alternating k-out-stars (activity spread, AoutS). -/
def changeAltOutStars (g : Digraph) (i _j : ℕ) : ℚ :=
  lambda0 * (1 - (1 - 1/lambda0) ^ Digraph.outdegree g i)

/-- changeAltKTrianglesT: alternating k-triangles AT-T (path closure).
First arm: v over the out-neighbours of i, skipping v = i and v = j,
testing isArc(j, v); second arm: v over the in-neighbours of i (the keys
of Grev[i]), skipping v = i and v = j, testing isArc(v, j). -/
def changeAltKTrianglesT (g : Digraph) (i j : ℕ) : ℚ :=
  (∑ v ∈ (Finset.range g.n).filter (fun v => g.G i v = true),
      (if v = i ∨ v = j then 0
       else if Digraph.isArc g j v then (1 - 1/lambda0) ^ (g.MixTwoPathMatrix i v) else 0)) +
  (∑ v ∈ (Finset.range g.n).filter (fun v => g.Grev i v = true),
      (if v = i ∨ v = j then 0
       else if Digraph.isArc g v j then (1 - 1/lambda0) ^ (g.MixTwoPathMatrix v j) else 0)) +
  lambda0 * (1 - (1 - 1/lambda0) ^ (g.MixTwoPathMatrix i j))

/-- changeAltKTrianglesC: alternating k-triangles AT-C (cyclic closure). -/
def changeAltKTrianglesC (g : Digraph) (i j : ℕ) : ℚ :=
  (∑ v ∈ (Finset.range g.n).filter (fun v => g.Grev i v = true),
      (if v = i ∨ v = j then 0
       else if Digraph.isArc g j v then
         (1 - 1/lambda0) ^ (g.MixTwoPathMatrix i v) +
         (1 - 1/lambda0) ^ (g.MixTwoPathMatrix v j)
       else 0)) +
  lambda0 * (1 - (1 - 1/lambda0) ^ (g.MixTwoPathMatrix j i))

/-- changeAltTwoPathsT: alternating two-paths A2P-T (multiple 2-paths). -/
def changeAltTwoPathsT (g : Digraph) (i j : ℕ) : ℚ :=
  (∑ v ∈ (Finset.range g.n).filter (fun v => g.G j v = true),
      (if v = i ∨ v = j then 0
       else (1 - 1/lambda0) ^ (g.MixTwoPathMatrix i v))) +
  (∑ v ∈ (Finset.range g.n).filter (fun v => g.Grev i v = true),
      (if v = i ∨ v = j then 0
       else (1 - 1/lambda0) ^ (g.MixTwoPathMatrix v j)))

/-- changeAltTwoPathsD: alternating two-paths A2P-D (shared popularity). -/
def changeAltTwoPathsD (g : Digraph) (i j : ℕ) : ℚ :=
  ∑ v ∈ (Finset.range g.n).filter (fun v => g.G i v = true),
    (if v = i ∨ v = j then 0
     else (1 - 1/lambda0) ^ (g.OutTwoPathMatrix j v))

/-- changeAltTwoPathsTD: A2P-TD (shared popularity + multiple two-paths). -/
def changeAltTwoPathsTD (g : Digraph) (i j : ℕ) : ℚ :=
  (1/2) * (changeAltTwoPathsT g i j + changeAltTwoPathsD g i j)

/-- changeSender. -/
def changeSender (g : Digraph) (i _j : ℕ) : ℚ := (g.binattr i : ℚ)

/-- changeReceiver. -/
def changeReceiver (g : Digraph) (_i j : ℕ) : ℚ := (g.binattr j : ℚ)

/-- changeInteraction. -/
def changeInteraction (g : Digraph) (i j : ℕ) : ℚ :=
  (g.binattr i : ℚ) * (g.binattr j : ℚ)

/-- changeMatching: categorical matching. -/
def changeMatching (g : Digraph) (i j : ℕ) : ℚ :=
  if g.catattr i = g.catattr j then 1 else 0

/-- changeMatchingReciprocity: categorical matching reciprocity. -/
def changeMatchingReciprocity (g : Digraph) (i j : ℕ) : ℚ :=
  if g.catattr i = g.catattr j ∧ Digraph.isArc g j i then 1 else 0

/-- changeMismatching: categorical mismatching. -/
def changeMismatching (g : Digraph) (i j : ℕ) : ℚ :=
  if g.catattr i ≠ g.catattr j then 1 else 0

/-- changeMismatchingReciprocity: categorical mismatching reciprocity. -/
def changeMismatchingReciprocity (g : Digraph) (i j : ℕ) : ℚ :=
  if g.catattr i ≠ g.catattr j ∧ Digraph.isArc g j i then 1 else 0

/-!
The basic Metropolis-Hastings sampler and the two estimation algorithms
(EstimNetDirectedSimpleDemo.py).  Randomness is an input stream: for each
proposal k the stream supplies the node pair (i, j) drawn by
random.sample (distinct, in 0..n-1) and the Boolean outcome of the
acceptance comparison random.uniform(0,1) < math.exp(total).  numpy
vectors over the statistics become rational lists.
-/

/-- Number of proposals per sampler call (sampler_m = 1000). -/
def sampler_m : ℕ := 1000

/-- One random proposal: the sampled node pair and the outcome of the
acceptance-test comparison. -/
structure Draw where
  i : ℕ
  j : ℕ
  accept : Bool

/-- Running state of one BasicSampler call. -/
structure SamplerState where
  graph : Digraph
  accepted : ℕ
  addChangeStats : List ℚ
  delChangeStats : List ℚ

/-- Result of one BasicSampler call. -/
structure SamplerResult where
  acceptanceRate : ℚ
  addChangeStats : List ℚ
  delChangeStats : List ℚ
  graph : Digraph

/-- np.sign on a rational. -/
def npsign (q : ℚ) : ℚ := if 0 < q then 1 else if q < 0 then -1 else 0

/-- One proposal of BasicSampler: toggle the sampled pair, evaluate all
change statistics against the graph with the arc absent, and apply /
revert the move according to the acceptance outcome and performMove. -/
def samplerStep (changestats_func_list : List (Digraph → ℕ → ℕ → ℚ))
    (theta : List ℚ) (performMove : Bool) (st : SamplerState) (d : Draw) :
    SamplerState :=
  let i := d.i
  let j := d.j
  let isDelete := Digraph.isArc st.graph i j
  let g1 := if isDelete then Digraph.removeArc st.graph i j else st.graph
  let changestats := changestats_func_list.map (fun f => f g1 i j)
  let changeSignMul : ℚ := if isDelete then -1 else 1
  let _total := (List.zipWith (fun th cs => th * (changeSignMul * cs)) theta changestats).sum
  if d.accept then
    let g2 :=
      if performMove then (if isDelete then g1 else Digraph.insertArc g1 i j)
      else (if isDelete then Digraph.insertArc g1 i j else g1)
    if isDelete then
      { graph := g2, accepted := st.accepted + 1,
        addChangeStats := st.addChangeStats,
        delChangeStats := List.zipWith (· + ·) st.delChangeStats changestats }
    else
      { graph := g2, accepted := st.accepted + 1,
        addChangeStats := List.zipWith (· + ·) st.addChangeStats changestats,
        delChangeStats := st.delChangeStats }
  else
    { graph := if isDelete then Digraph.insertArc g1 i j else g1,
      accepted := st.accepted,
      addChangeStats := st.addChangeStats,
      delChangeStats := st.delChangeStats }

/-- BasicSampler: sampler_m proposals, starting from zero accumulators. -/
def BasicSampler (g : Digraph) (changestats_func_list : List (Digraph → ℕ → ℕ → ℚ))
    (theta : List ℚ) (performMove : Bool) (draws : ℕ → Draw) : SamplerResult :=
  let nstats := changestats_func_list.length
  let st0 : SamplerState :=
    { graph := g, accepted := 0,
      addChangeStats := List.replicate nstats 0,
      delChangeStats := List.replicate nstats 0 }
  let st := (List.range sampler_m).foldl
    (fun st k => samplerStep changestats_func_list theta performMove st (draws k)) st0
  { acceptanceRate := (st.accepted : ℚ) / (sampler_m : ℚ),
    addChangeStats := st.addChangeStats,
    delChangeStats := st.delChangeStats,
    graph := st.graph }

/-- One theta-trace row as written by both algorithms after the header:
the global step value t, the theta vector, and the acceptance rate. -/
structure TraceRow where
  t : ℤ
  theta : List ℚ
  acceptanceRate : ℚ

/-- One dzA-trace row (written only by Algorithm EE). -/
structure DzARow where
  t : ℤ
  dzA : List ℚ

/-- ACA of Algorithm S (0.1). -/
def ACA_S : ℚ := 1/10

/-- MAXSTEP of Algorithm S (0.1). -/
def MAXSTEP : ℚ := 1/10

/-- ACA of Algorithm EE (1e-09). -/
def ACA_EE : ℚ := 1/1000000000

/-- compC of Algorithm EE (1e-02). -/
def compC : ℚ := 1/100

/-- The guarded step multiplier of Algorithm S: da[l] becomes
ACA / sumChangeStats[l]^2 only under the sumChangeStats[l] != 0 test,
and keeps its zero initialisation otherwise. -/
def daS (s : ℚ) : ℚ := if s ≠ 0 then ACA_S / s ^ 2 else 0

/-- The np.where(np.abs(thetamean) < 1, 1, thetamean) guard of
Algorithm EE, applied before dividing by np.abs(thetamean). -/
def muGuard (m : ℚ) : ℚ := if |m| < 1 then 1 else m

/-- Running state of Algorithm S. -/
structure AlgSState where
  theta : List ℚ
  D0 : List ℚ
  trace : List TraceRow
  graph : Digraph

/-- One iteration t of Algorithm S: a non-mutating sampler call, the
D0 accumulation, the guarded step, the one-sided MAXSTEP clamp, and the
trace row (t - M1, theta, acceptance_rate). -/
def algSStep (changestats_func_list : List (Digraph → ℕ → ℕ → ℚ))
    (draws : ℕ → ℕ → Draw) (M1 : ℕ) (st : AlgSState) (t : ℕ) : AlgSState :=
  let res := BasicSampler st.graph changestats_func_list st.theta false (draws t)
  let dzA := List.zipWith (· - ·) res.delChangeStats res.addChangeStats
  let dzAmean := dzA.map (· / (sampler_m : ℚ))
  let sumChangeStats := List.zipWith (· + ·) res.addChangeStats res.delChangeStats
  let D0 := List.zipWith (· + ·) st.D0 (dzA.map (· ^ 2))
  let da := sumChangeStats.map daS
  let theta_step := List.zipWith (· * ·)
    (List.zipWith (fun m d => npsign m * d) dzAmean da) (dzA.map (· ^ 2))
  let theta_step := theta_step.map (fun x => if x > MAXSTEP then MAXSTEP else x)
  let theta := List.zipWith (· + ·) st.theta theta_step
  { theta := theta, D0 := D0,
    trace := st.trace ++ [⟨(t : ℤ) - (M1 : ℤ), theta, res.acceptanceRate⟩],
    graph := res.graph }

/-- Result of Algorithm S; D0 is exposed alongside Dmean = sampler_m / D0
so that the divisor of the final elementwise division is visible. -/
structure AlgSResult where
  theta : List ℚ
  D0 : List ℚ
  Dmean : List ℚ
  trace : List TraceRow
  graph : Digraph

/-- Algorithm S: M1 iterations from theta = 0, D0 = 0; returns theta and
Dmean = sampler_m / D0 elementwise. -/
def algorithm_S (g : Digraph) (changestats_func_list : List (Digraph → ℕ → ℕ → ℚ))
    (M1 : ℕ) (draws : ℕ → ℕ → Draw) : AlgSResult :=
  let nstats := changestats_func_list.length
  let st0 : AlgSState :=
    { theta := List.replicate nstats 0, D0 := List.replicate nstats 0,
      trace := [], graph := g }
  let st := (List.range M1).foldl (algSStep changestats_func_list draws M1) st0
  { theta := st.theta, D0 := st.D0,
    Dmean := st.D0.map (fun d => (sampler_m : ℚ) / d),
    trace := st.trace, graph := st.graph }

/-- Running state of an inner iteration of Algorithm EE; thetamatrix
collects one theta row per inner iteration. -/
structure EEInnerState where
  theta : List ℚ
  dzA : List ℚ
  t : ℕ
  trace : List TraceRow
  dzAtrace : List DzARow
  thetamatrix : List (List ℚ)
  graph : Digraph

/-- One inner iteration of Algorithm EE: a mutating sampler call, the
running dzA accumulation, the theta step, both trace rows at the global
index t, and the thetamatrix row. -/
def eeInnerStep (changestats_func_list : List (Digraph → ℕ → ℕ → ℚ))
    (D0 : List ℚ) (drawsInner : ℕ → ℕ → Draw) (st : EEInnerState)
    (tinner : ℕ) : EEInnerState :=
  let res := BasicSampler st.graph changestats_func_list st.theta true (drawsInner tinner)
  let dzA := List.zipWith (· + ·) st.dzA
    (List.zipWith (· - ·) res.addChangeStats res.delChangeStats)
  let da := D0.map (· * ACA_EE)
  let theta_step := List.zipWith (· * ·)
    (List.zipWith (fun z d => -npsign z * d) dzA da) (dzA.map (· ^ 2))
  let theta := List.zipWith (· + ·) st.theta theta_step
  { theta := theta, dzA := dzA, t := st.t + 1,
    trace := st.trace ++ [⟨(st.t : ℤ), theta, res.acceptanceRate⟩],
    dzAtrace := st.dzAtrace ++ [⟨(st.t : ℤ), dzA⟩],
    thetamatrix := st.thetamatrix ++ [theta],
    graph := res.graph }

/-- Running state of Algorithm EE across outer iterations. -/
structure EEState where
  theta : List ℚ
  D0 : List ℚ
  dzA : List ℚ
  t : ℕ
  trace : List TraceRow
  dzAtrace : List DzARow
  graph : Digraph

/-- One outer iteration of Algorithm EE: M inner iterations, then the
rescale of D0 from the per-coordinate mean and standard deviation of the
collected theta rows.  np.std is supplied as the stdFn parameter (its
float square root is outside the rational embedding); np.mean of a
column is its sum divided by M. -/
def eeOuterStep (changestats_func_list : List (Digraph → ℕ → ℕ → ℚ))
    (draws : ℕ → ℕ → ℕ → Draw) (M : ℕ) (stdFn : List ℚ → ℚ)
    (st : EEState) (touter : ℕ) : EEState :=
  let inner0 : EEInnerState :=
    { theta := st.theta, dzA := st.dzA, t := st.t, trace := st.trace,
      dzAtrace := st.dzAtrace, thetamatrix := [], graph := st.graph }
  let inner := (List.range M).foldl
    (eeInnerStep changestats_func_list st.D0 (draws touter)) inner0
  let nstats := changestats_func_list.length
  let column := fun l => inner.thetamatrix.map (fun row => row.getD l 0)
  let thetamean := (List.range nstats).map (fun l => (column l).sum / (M : ℚ))
  let thetasd := (List.range nstats).map (fun l => stdFn (column l))
  let thetamean := thetamean.map muGuard
  let DD := List.zipWith (fun sd m => sd / |m|) thetasd thetamean
  let D0 := List.zipWith (fun d dd => d * (compC / dd)) st.D0 DD
  { theta := inner.theta, D0 := D0, dzA := inner.dzA, t := inner.t,
    trace := inner.trace, dzAtrace := inner.dzAtrace, graph := inner.graph }

/-- Result of Algorithm EE. -/
structure EEResult where
  theta : List ℚ
  D0 : List ℚ
  trace : List TraceRow
  dzAtrace : List DzARow
  graph : Digraph

/-- Algorithm EE: Mouter outer iterations of M inner iterations each,
with dzA zeroed once outside the loops and the global trace index t
starting at 0. -/
def algorithm_EE (g : Digraph) (changestats_func_list : List (Digraph → ℕ → ℕ → ℚ))
    (theta D0 : List ℚ) (Mouter M : ℕ) (draws : ℕ → ℕ → ℕ → Draw)
    (stdFn : List ℚ → ℚ) : EEResult :=
  let nstats := changestats_func_list.length
  let st0 : EEState :=
    { theta := theta, D0 := D0, dzA := List.replicate nstats 0, t := 0,
      trace := [], dzAtrace := [], graph := g }
  let st := (List.range Mouter).foldl
    (eeOuterStep changestats_func_list draws M stdFn) st0
  { theta := st.theta, D0 := st.D0, trace := st.trace,
    dzAtrace := st.dzAtrace, graph := st.graph }

/-- The S-then-EE composition of run_on_network_attr: Algorithm S from a
zero theta, then Algorithm EE on the same graph started from S's final
theta and Dmean; the theta trace file receives, after its header line,
first S's rows and then EE's rows. -/
def fullThetaTrace (g : Digraph) (changestats_func_list : List (Digraph → ℕ → ℕ → ℚ))
    (M1 Mouter M : ℕ) (drawsS : ℕ → ℕ → Draw) (drawsEE : ℕ → ℕ → ℕ → Draw)
    (stdFn : List ℚ → ℚ) : List TraceRow :=
  let s := algorithm_S g changestats_func_list M1 drawsS
  let e := algorithm_EE s.graph changestats_func_list s.theta s.Dmean Mouter M drawsEE stdFn
  s.trace ++ e.trace

/-!
Helper definitions used by the analysis: per-node contributions of the
updateTwoPathMatrices loop, the specification's variant of the AT-T
formula, and concrete states used as explicit inputs.
-/

/-- Contribution of loop node v to cell (a, b) of OutTwoPathMatrix in
one run of updateTwoPathMatrices with arc (i, j), reading arc existence
from adjacency A. -/
def outContrib (A : ℕ → ℕ → Bool) (i j : ℕ) (inc : ℤ) (a b v : ℕ) : ℤ :=
  (if v = a ∧ ¬(v = i ∨ v = j) ∧ A i v = true ∧ b = j then inc else 0) +
  (if v = b ∧ ¬(v = i ∨ v = j) ∧ A i v = true ∧ a = j then inc else 0)

/-- Contribution of loop node v to cell (a, b) of InTwoPathMatrix. -/
def inContrib (A : ℕ → ℕ → Bool) (i j : ℕ) (inc : ℤ) (a b v : ℕ) : ℤ :=
  (if v = a ∧ ¬(v = i ∨ v = j) ∧ A v j = true ∧ b = i then inc else 0) +
  (if v = b ∧ ¬(v = i ∨ v = j) ∧ A v j = true ∧ a = i then inc else 0)

/-- Contribution of loop node v to cell (a, b) of MixTwoPathMatrix. -/
def mixContrib (A : ℕ → ℕ → Bool) (i j : ℕ) (inc : ℤ) (a b v : ℕ) : ℤ :=
  (if v = a ∧ ¬(v = i ∨ v = j) ∧ b = j then (if A v i = true then (1:ℤ) else 0) * inc else 0) +
  (if v = b ∧ ¬(v = i ∨ v = j) ∧ a = i then (if A j v = true then (1:ℤ) else 0) * inc else 0)

/-- The AT-T change statistic as the specification's table writes it:
BOTH sum arms test the arc v->j.  Stated only for comparison with
changeAltKTrianglesT, whose first arm tests j->v as the source does. -/
def changeAltKTrianglesT_claimFormula (g : Digraph) (i j : ℕ) : ℚ :=
  (∑ v ∈ (Finset.range g.n).filter (fun v => g.G i v = true),
      (if v = i ∨ v = j then 0
       else if Digraph.isArc g v j then (1 - 1/lambda0) ^ (g.MixTwoPathMatrix i v) else 0)) +
  (∑ v ∈ (Finset.range g.n).filter (fun v => g.Grev i v = true),
      (if v = i ∨ v = j then 0
       else if Digraph.isArc g v j then (1 - 1/lambda0) ^ (g.MixTwoPathMatrix v j) else 0)) +
  lambda0 * (1 - (1 - 1/lambda0) ^ (g.MixTwoPathMatrix i j))

/-- Three-node graph with arcs 0->1 and 0->2, built exactly as loading a
Pajek file with those two arc lines builds it. -/
def gOutStar : Digraph :=
  Digraph.insertArc (Digraph.insertArc (Digraph.emptyDigraph 3) 0 1) 0 2

/-- Three-node graph with arcs 0->2 and 1->2. -/
def gInStar : Digraph :=
  Digraph.insertArc (Digraph.insertArc (Digraph.emptyDigraph 3) 0 2) 1 2

/-- Two-node graph with every binary attribute equal to 1 and every
categorical attribute equal to 0, with no arcs. -/
def gTwoAttr : Digraph :=
  { Digraph.emptyDigraph 2 with binattr := fun _ => 1 }

/-- A constant draw stream proposing the pair (0, 1) with the acceptance
comparison succeeding (for theta = 0 the acceptance test
u < exp(0) = 1 always succeeds, so this is the forced outcome). -/
def drawsAccept01 : ℕ → ℕ → Draw := fun _ _ => ⟨0, 1, true⟩

/-!
Lemmas.  First the pointwise analysis of the updateTwoPathMatrices loop.
-/

theorem fset_apply (f : ℕ → ℕ → Bool) (i j : ℕ) (b : Bool) (a c : ℕ) :
    fset f i j b a c = if a = i ∧ c = j then b else f a c := rfl

theorem mset_apply (M : ℕ → ℕ → ℤ) (a b : ℕ) (d : ℤ) (x y : ℕ) :
    mset M a b d x y = M x y + (if x = a ∧ y = b then d else 0) := by
  unfold mset
  split_ifs <;> simp

theorem list_range_map_sum (n : ℕ) (f : ℕ → ℤ) :
    ((List.range n).map f).sum = ∑ v ∈ Finset.range n, f v := by
  induction n with
  | zero => simp
  | succ m ih =>
    rw [List.range_succ, Finset.sum_range_succ]
    simp [ih]

theorem sum_range_ite_point (n a : ℕ) (P : ℕ → Prop) [DecidablePred P] (x : ℕ → ℤ) :
    (∑ v ∈ Finset.range n, if v = a ∧ P v then x v else 0) =
      if a < n ∧ P a then x a else 0 := by
  by_cases ha : a < n
  · rw [Finset.sum_eq_single_of_mem a (Finset.mem_range.mpr ha)]
    · by_cases hP : P a
      · simp [hP, ha]
      · simp [hP, ha]
    · intro b _ hb
      exact if_neg (fun (h : b = a ∧ P b) => hb h.1)
  · rw [Finset.sum_eq_zero, if_neg (fun (h : a < n ∧ P a) => ha h.1)]
    intro v hv
    exact if_neg (fun (h : v = a ∧ P v) => ha (h.1 ▸ Finset.mem_range.mp hv))

namespace Digraph

theorem twoPathStep_n (i j : ℕ) (inc : ℤ) (g : Digraph) (v : ℕ) :
    (twoPathStep i j inc g v).n = g.n := by
  unfold twoPathStep
  dsimp only [isArc]
  split_ifs <;> rfl

theorem twoPathStep_G (i j : ℕ) (inc : ℤ) (g : Digraph) (v : ℕ) :
    (twoPathStep i j inc g v).G = g.G := by
  unfold twoPathStep
  dsimp only [isArc]
  split_ifs <;> rfl

theorem twoPathStep_Grev (i j : ℕ) (inc : ℤ) (g : Digraph) (v : ℕ) :
    (twoPathStep i j inc g v).Grev = g.Grev := by
  unfold twoPathStep
  dsimp only [isArc]
  split_ifs <;> rfl

theorem twoPathStep_binattr (i j : ℕ) (inc : ℤ) (g : Digraph) (v : ℕ) :
    (twoPathStep i j inc g v).binattr = g.binattr := by
  unfold twoPathStep
  dsimp only [isArc]
  split_ifs <;> rfl

theorem twoPathStep_catattr (i j : ℕ) (inc : ℤ) (g : Digraph) (v : ℕ) :
    (twoPathStep i j inc g v).catattr = g.catattr := by
  unfold twoPathStep
  dsimp only [isArc]
  split_ifs <;> rfl

theorem twoPathStep_Out (i j : ℕ) (inc : ℤ) (g : Digraph) (v a b : ℕ) :
    (twoPathStep i j inc g v).OutTwoPathMatrix a b =
      g.OutTwoPathMatrix a b + outContrib g.G i j inc a b v := by
  unfold twoPathStep outContrib
  dsimp only [isArc]
  by_cases hv : v = i ∨ v = j
  · simp [hv]
  · by_cases hA : g.G i v = true
    · have e1 : (v = a ∧ ¬(v = i ∨ v = j) ∧ g.G i v = true ∧ b = j) ↔ (a = v ∧ b = j) := by
        constructor
        · rintro ⟨rfl, _, _, hb⟩
          exact ⟨rfl, hb⟩
        · rintro ⟨rfl, hb⟩
          exact ⟨rfl, hv, hA, hb⟩
      have e2 : (v = b ∧ ¬(v = i ∨ v = j) ∧ g.G i v = true ∧ a = j) ↔ (a = j ∧ b = v) := by
        constructor
        · rintro ⟨rfl, _, _, ha⟩
          exact ⟨ha, rfl⟩
        · rintro ⟨ha, rfl⟩
          exact ⟨rfl, hv, hA, ha⟩
      simp only [if_pos hA, if_neg hv, e1, e2]
      split_ifs <;> simp_all [mset_apply] <;> split_ifs <;> simp_all
    · have z1 : (if v = a ∧ ¬(v = i ∨ v = j) ∧ g.G i v = true ∧ b = j then inc else 0) = 0 :=
        if_neg (fun h => hA h.2.2.1)
      have z2 : (if v = b ∧ ¬(v = i ∨ v = j) ∧ g.G i v = true ∧ a = j then inc else 0) = 0 :=
        if_neg (fun h => hA h.2.2.1)
      simp only [if_neg hA, if_neg hv, z1, z2]
      split_ifs <;> simp

theorem twoPathStep_In (i j : ℕ) (inc : ℤ) (g : Digraph) (v a b : ℕ) :
    (twoPathStep i j inc g v).InTwoPathMatrix a b =
      g.InTwoPathMatrix a b + inContrib g.G i j inc a b v := by
  unfold twoPathStep inContrib
  dsimp only [isArc]
  by_cases hv : v = i ∨ v = j
  · simp [hv]
  · by_cases hB : g.G v j = true
    · have e1 : (v = a ∧ ¬(v = i ∨ v = j) ∧ g.G v j = true ∧ b = i) ↔ (a = v ∧ b = i) := by
        constructor
        · rintro ⟨rfl, _, _, hb⟩
          exact ⟨rfl, hb⟩
        · rintro ⟨rfl, hb⟩
          exact ⟨rfl, hv, hB, hb⟩
      have e2 : (v = b ∧ ¬(v = i ∨ v = j) ∧ g.G v j = true ∧ a = i) ↔ (a = i ∧ b = v) := by
        constructor
        · rintro ⟨rfl, _, _, ha⟩
          exact ⟨ha, rfl⟩
        · rintro ⟨ha, rfl⟩
          exact ⟨rfl, hv, hB, ha⟩
      simp only [if_neg hv, e1, e2]
      split_ifs <;> simp_all [mset_apply] <;> split_ifs <;> simp_all
    · have z1 : (if v = a ∧ ¬(v = i ∨ v = j) ∧ g.G v j = true ∧ b = i then inc else 0) = 0 :=
        if_neg (fun h => hB h.2.2.1)
      have z2 : (if v = b ∧ ¬(v = i ∨ v = j) ∧ g.G v j = true ∧ a = i then inc else 0) = 0 :=
        if_neg (fun h => hB h.2.2.1)
      simp only [if_neg hv, z1, z2]
      split_ifs <;> simp_all

theorem twoPathStep_Mix (i j : ℕ) (inc : ℤ) (g : Digraph) (v a b : ℕ) :
    (twoPathStep i j inc g v).MixTwoPathMatrix a b =
      g.MixTwoPathMatrix a b + mixContrib g.G i j inc a b v := by
  unfold twoPathStep mixContrib
  dsimp only [isArc]
  by_cases hv : v = i ∨ v = j
  · simp [hv]
  · have e1 : (v = a ∧ ¬(v = i ∨ v = j) ∧ b = j) ↔ (a = v ∧ b = j) := by
      constructor
      · rintro ⟨rfl, _, hb⟩
        exact ⟨rfl, hb⟩
      · rintro ⟨rfl, hb⟩
        exact ⟨rfl, hv, hb⟩
    have e2 : (v = b ∧ ¬(v = i ∨ v = j) ∧ a = i) ↔ (a = i ∧ b = v) := by
      constructor
      · rintro ⟨rfl, _, ha⟩
        exact ⟨ha, rfl⟩
      · rintro ⟨ha, rfl⟩
        exact ⟨rfl, hv, ha⟩
    simp only [if_neg hv, e1, e2]
    split_ifs <;> simp_all [mset_apply] <;> split_ifs <;> simp_all

theorem foldl_twoPathStep_n (i j : ℕ) (inc : ℤ) :
    ∀ (L : List ℕ) (g : Digraph), (L.foldl (twoPathStep i j inc) g).n = g.n := by
  intro L
  induction L with
  | nil => intro g; rfl
  | cons v L ih =>
    intro g
    rw [List.foldl_cons, ih, twoPathStep_n]

theorem foldl_twoPathStep_G (i j : ℕ) (inc : ℤ) :
    ∀ (L : List ℕ) (g : Digraph), (L.foldl (twoPathStep i j inc) g).G = g.G := by
  intro L
  induction L with
  | nil => intro g; rfl
  | cons v L ih =>
    intro g
    rw [List.foldl_cons, ih, twoPathStep_G]

theorem foldl_twoPathStep_Grev (i j : ℕ) (inc : ℤ) :
    ∀ (L : List ℕ) (g : Digraph), (L.foldl (twoPathStep i j inc) g).Grev = g.Grev := by
  intro L
  induction L with
  | nil => intro g; rfl
  | cons v L ih =>
    intro g
    rw [List.foldl_cons, ih, twoPathStep_Grev]

theorem foldl_twoPathStep_binattr (i j : ℕ) (inc : ℤ) :
    ∀ (L : List ℕ) (g : Digraph), (L.foldl (twoPathStep i j inc) g).binattr = g.binattr := by
  intro L
  induction L with
  | nil => intro g; rfl
  | cons v L ih =>
    intro g
    rw [List.foldl_cons, ih, twoPathStep_binattr]

theorem foldl_twoPathStep_catattr (i j : ℕ) (inc : ℤ) :
    ∀ (L : List ℕ) (g : Digraph), (L.foldl (twoPathStep i j inc) g).catattr = g.catattr := by
  intro L
  induction L with
  | nil => intro g; rfl
  | cons v L ih =>
    intro g
    rw [List.foldl_cons, ih, twoPathStep_catattr]

theorem foldl_twoPathStep_Out (i j : ℕ) (inc : ℤ) (a b : ℕ) :
    ∀ (L : List ℕ) (g : Digraph),
      (L.foldl (twoPathStep i j inc) g).OutTwoPathMatrix a b =
        g.OutTwoPathMatrix a b + (L.map (outContrib g.G i j inc a b)).sum := by
  intro L
  induction L with
  | nil => intro g; simp
  | cons v L ih =>
    intro g
    rw [List.foldl_cons, ih, twoPathStep_Out, twoPathStep_G, List.map_cons, List.sum_cons]
    ring

theorem foldl_twoPathStep_In (i j : ℕ) (inc : ℤ) (a b : ℕ) :
    ∀ (L : List ℕ) (g : Digraph),
      (L.foldl (twoPathStep i j inc) g).InTwoPathMatrix a b =
        g.InTwoPathMatrix a b + (L.map (inContrib g.G i j inc a b)).sum := by
  intro L
  induction L with
  | nil => intro g; simp
  | cons v L ih =>
    intro g
    rw [List.foldl_cons, ih, twoPathStep_In, twoPathStep_G, List.map_cons, List.sum_cons]
    ring

theorem foldl_twoPathStep_Mix (i j : ℕ) (inc : ℤ) (a b : ℕ) :
    ∀ (L : List ℕ) (g : Digraph),
      (L.foldl (twoPathStep i j inc) g).MixTwoPathMatrix a b =
        g.MixTwoPathMatrix a b + (L.map (mixContrib g.G i j inc a b)).sum := by
  intro L
  induction L with
  | nil => intro g; simp
  | cons v L ih =>
    intro g
    rw [List.foldl_cons, ih, twoPathStep_Mix, twoPathStep_G, List.map_cons, List.sum_cons]
    ring

theorem update_n (g : Digraph) (i j : ℕ) (isAdd : Bool) :
    (updateTwoPathMatrices g i j isAdd).n = g.n :=
  foldl_twoPathStep_n i j _ _ g

theorem update_G (g : Digraph) (i j : ℕ) (isAdd : Bool) :
    (updateTwoPathMatrices g i j isAdd).G = g.G :=
  foldl_twoPathStep_G i j _ _ g

theorem update_Grev (g : Digraph) (i j : ℕ) (isAdd : Bool) :
    (updateTwoPathMatrices g i j isAdd).Grev = g.Grev :=
  foldl_twoPathStep_Grev i j _ _ g

theorem update_binattr (g : Digraph) (i j : ℕ) (isAdd : Bool) :
    (updateTwoPathMatrices g i j isAdd).binattr = g.binattr :=
  foldl_twoPathStep_binattr i j _ _ g

theorem update_catattr (g : Digraph) (i j : ℕ) (isAdd : Bool) :
    (updateTwoPathMatrices g i j isAdd).catattr = g.catattr :=
  foldl_twoPathStep_catattr i j _ _ g

theorem update_Out (g : Digraph) (i j : ℕ) (isAdd : Bool) (a b : ℕ) :
    (updateTwoPathMatrices g i j isAdd).OutTwoPathMatrix a b =
      g.OutTwoPathMatrix a b +
      ((if a < g.n ∧ ¬(a = i ∨ a = j) ∧ g.G i a = true ∧ b = j
         then (if isAdd then (1:ℤ) else -1) else 0) +
       (if b < g.n ∧ ¬(b = i ∨ b = j) ∧ g.G i b = true ∧ a = j
         then (if isAdd then (1:ℤ) else -1) else 0)) := by
  unfold updateTwoPathMatrices
  rw [foldl_twoPathStep_Out, list_range_map_sum]
  unfold outContrib
  rw [Finset.sum_add_distrib, sum_range_ite_point, sum_range_ite_point]

theorem update_In (g : Digraph) (i j : ℕ) (isAdd : Bool) (a b : ℕ) :
    (updateTwoPathMatrices g i j isAdd).InTwoPathMatrix a b =
      g.InTwoPathMatrix a b +
      ((if a < g.n ∧ ¬(a = i ∨ a = j) ∧ g.G a j = true ∧ b = i
         then (if isAdd then (1:ℤ) else -1) else 0) +
       (if b < g.n ∧ ¬(b = i ∨ b = j) ∧ g.G b j = true ∧ a = i
         then (if isAdd then (1:ℤ) else -1) else 0)) := by
  unfold updateTwoPathMatrices
  rw [foldl_twoPathStep_In, list_range_map_sum]
  unfold inContrib
  rw [Finset.sum_add_distrib, sum_range_ite_point, sum_range_ite_point]

theorem update_Mix (g : Digraph) (i j : ℕ) (isAdd : Bool) (a b : ℕ) :
    (updateTwoPathMatrices g i j isAdd).MixTwoPathMatrix a b =
      g.MixTwoPathMatrix a b +
      ((if a < g.n ∧ ¬(a = i ∨ a = j) ∧ b = j
         then (if g.G a i = true then (1:ℤ) else 0) * (if isAdd then (1:ℤ) else -1) else 0) +
       (if b < g.n ∧ ¬(b = i ∨ b = j) ∧ a = i
         then (if g.G j b = true then (1:ℤ) else 0) * (if isAdd then (1:ℤ) else -1) else 0)) := by
  unfold updateTwoPathMatrices
  rw [foldl_twoPathStep_Mix, list_range_map_sum]
  unfold mixContrib
  rw [Finset.sum_add_distrib, sum_range_ite_point, sum_range_ite_point]

end Digraph

theorem sum_range_congr_except1 (n w0 : ℕ) (f f' : ℕ → ℤ) (h0 : w0 < n)
    (h : ∀ w, w ≠ w0 → f' w = f w) :
    ∑ w ∈ Finset.range n, f' w =
      (∑ w ∈ Finset.range n, f w) + (f' w0 - f w0) := by
  have hmem : w0 ∈ Finset.range n := Finset.mem_range.mpr h0
  rw [Finset.sum_eq_sum_diff_singleton_add hmem f',
      Finset.sum_eq_sum_diff_singleton_add hmem f]
  have hcongr : ∑ w ∈ Finset.range n \ {w0}, f' w = ∑ w ∈ Finset.range n \ {w0}, f w := by
    apply Finset.sum_congr rfl
    intro w hw
    exact h w (by simpa using (Finset.mem_sdiff.mp hw).2)
  rw [hcongr]
  ring

theorem sum_range_congr_except2 (n w0 w1 : ℕ) (f f' : ℕ → ℤ) (hw : w0 ≠ w1)
    (h0 : w0 < n) (h1 : w1 < n)
    (h : ∀ w, w ≠ w0 → w ≠ w1 → f' w = f w) :
    ∑ w ∈ Finset.range n, f' w =
      (∑ w ∈ Finset.range n, f w) + (f' w0 - f w0) + (f' w1 - f w1) := by
  have hmem0 : w0 ∈ Finset.range n := Finset.mem_range.mpr h0
  have hmem1 : w1 ∈ Finset.range n \ {w0} := by
    simp only [Finset.mem_sdiff, Finset.mem_range, Finset.mem_singleton]
    exact ⟨h1, Ne.symm hw⟩
  rw [Finset.sum_eq_sum_diff_singleton_add hmem0 f',
      Finset.sum_eq_sum_diff_singleton_add hmem0 f,
      Finset.sum_eq_sum_diff_singleton_add hmem1 f',
      Finset.sum_eq_sum_diff_singleton_add hmem1 f]
  have hcongr : ∑ w ∈ (Finset.range n \ {w0}) \ {w1}, f' w =
      ∑ w ∈ (Finset.range n \ {w0}) \ {w1}, f w := by
    apply Finset.sum_congr rfl
    intro w hw'
    have h1' := Finset.mem_sdiff.mp hw'
    have h2' := Finset.mem_sdiff.mp h1'.1
    exact h w (by simpa using h2'.2) (by simpa using h1'.2)
  rw [hcongr]
  ring

theorem delta_commonIn (A : ℕ → ℕ → Bool) (n i j u v : ℕ) (bv : Bool)
    (hirr : ∀ x, A x x = false) (hAij : A i j = (!bv))
    (hi : i < n) (hij : i ≠ j) (hu : u < n) (hv : v < n) (huv : u ≠ v) :
    (∑ w ∈ Finset.range n,
        (if fset A i j bv w u = true ∧ fset A i j bv w v = true then (1:ℤ) else 0)) =
      (∑ w ∈ Finset.range n, (if A w u = true ∧ A w v = true then (1:ℤ) else 0)) +
      ((if u < n ∧ ¬(u = i ∨ u = j) ∧ fset A i j bv i u = true ∧ v = j
         then (if bv then (1:ℤ) else -1) else 0) +
       (if v < n ∧ ¬(v = i ∨ v = j) ∧ fset A i j bv i v = true ∧ u = j
         then (if bv then (1:ℤ) else -1) else 0)) := by
  rw [sum_range_congr_except1 n i
      (fun w => if A w u = true ∧ A w v = true then (1:ℤ) else 0)
      (fun w => if fset A i j bv w u = true ∧ fset A i j bv w v = true then (1:ℤ) else 0)
      hi (fun w hw => by simp [fset, hw])]
  congr 1
  simp only [fset, eq_self_iff_true, true_and]
  have hii : A i i = false := hirr i
  split_ifs <;> simp_all <;> omega

theorem delta_commonOut (A : ℕ → ℕ → Bool) (n i j u v : ℕ) (bv : Bool)
    (hirr : ∀ x, A x x = false) (hAij : A i j = (!bv))
    (hj : j < n) (hij : i ≠ j) (hu : u < n) (hv : v < n) (huv : u ≠ v) :
    (∑ w ∈ Finset.range n,
        (if fset A i j bv u w = true ∧ fset A i j bv v w = true then (1:ℤ) else 0)) =
      (∑ w ∈ Finset.range n, (if A u w = true ∧ A v w = true then (1:ℤ) else 0)) +
      ((if u < n ∧ ¬(u = i ∨ u = j) ∧ fset A i j bv u j = true ∧ v = i
         then (if bv then (1:ℤ) else -1) else 0) +
       (if v < n ∧ ¬(v = i ∨ v = j) ∧ fset A i j bv v j = true ∧ u = i
         then (if bv then (1:ℤ) else -1) else 0)) := by
  rw [sum_range_congr_except1 n j
      (fun w => if A u w = true ∧ A v w = true then (1:ℤ) else 0)
      (fun w => if fset A i j bv u w = true ∧ fset A i j bv v w = true then (1:ℤ) else 0)
      hj (fun w hw => by simp [fset, hw])]
  congr 1
  simp only [fset, eq_self_iff_true, true_and, and_true]
  have hjj : A j j = false := hirr j
  split_ifs <;> simp_all <;> omega

set_option maxHeartbeats 2000000 in
theorem delta_mixed (A : ℕ → ℕ → Bool) (n i j u v : ℕ) (bv : Bool)
    (hirr : ∀ x, A x x = false) (hAij : A i j = (!bv))
    (hi : i < n) (hj : j < n) (hij : i ≠ j) (hu : u < n) (hv : v < n) (huv : u ≠ v) :
    (∑ w ∈ Finset.range n,
        (if fset A i j bv u w = true ∧ fset A i j bv w v = true then (1:ℤ) else 0)) =
      (∑ w ∈ Finset.range n, (if A u w = true ∧ A w v = true then (1:ℤ) else 0)) +
      ((if u < n ∧ ¬(u = i ∨ u = j) ∧ v = j
         then (if fset A i j bv u i = true then (1:ℤ) else 0) * (if bv then (1:ℤ) else -1) else 0) +
       (if v < n ∧ ¬(v = i ∨ v = j) ∧ u = i
         then (if fset A i j bv j v = true then (1:ℤ) else 0) * (if bv then (1:ℤ) else -1) else 0)) := by
  rw [sum_range_congr_except2 n j i
      (fun w => if A u w = true ∧ A w v = true then (1:ℤ) else 0)
      (fun w => if fset A i j bv u w = true ∧ fset A i j bv w v = true then (1:ℤ) else 0)
      (Ne.symm hij) hj hi
      (fun w hwj hwi => by simp [fset, hwj, hwi])]
  rw [add_assoc]
  congr 1
  have hjj : A j j = false := hirr j
  have hii : A i i = false := hirr i
  have hji : ¬ (j = i) := fun h => hij h.symm
  cases bv with
  | false =>
    simp only [fset, eq_self_iff_true, true_and, and_true, Bool.not_false,
      if_false, hji, false_and, if_true] at hAij ⊢
    split_ifs <;> simp_all <;> omega
  | true =>
    simp only [fset, eq_self_iff_true, true_and, and_true, Bool.not_true,
      hji, false_and, if_false, if_true] at hAij ⊢
    split_ifs <;> simp_all <;> omega

namespace Digraph

theorem wf_irrefl (g : Digraph) (hwf : wfDigraph g) : ∀ x, g.G x x = false := by
  intro x
  cases h : g.G x x
  · rfl
  · exact absurd rfl (hwf.1 x x h).2.2

theorem insertArc_n (g : Digraph) (i j : ℕ) : (insertArc g i j).n = g.n :=
  update_n _ i j true

theorem insertArc_G (g : Digraph) (i j : ℕ) :
    (insertArc g i j).G = fset g.G i j true :=
  update_G _ i j true

theorem insertArc_Grev (g : Digraph) (i j : ℕ) :
    (insertArc g i j).Grev = fset g.Grev j i true :=
  update_Grev _ i j true

theorem insertArc_binattr (g : Digraph) (i j : ℕ) :
    (insertArc g i j).binattr = g.binattr :=
  update_binattr _ i j true

theorem insertArc_catattr (g : Digraph) (i j : ℕ) :
    (insertArc g i j).catattr = g.catattr :=
  update_catattr _ i j true

theorem removeArc_n (g : Digraph) (i j : ℕ) : (removeArc g i j).n = g.n :=
  update_n _ i j false

theorem removeArc_G (g : Digraph) (i j : ℕ) :
    (removeArc g i j).G = fset g.G i j false :=
  update_G _ i j false

theorem removeArc_Grev (g : Digraph) (i j : ℕ) :
    (removeArc g i j).Grev = fset g.Grev j i false :=
  update_Grev _ i j false

theorem removeArc_binattr (g : Digraph) (i j : ℕ) :
    (removeArc g i j).binattr = g.binattr :=
  update_binattr _ i j false

theorem removeArc_catattr (g : Digraph) (i j : ℕ) :
    (removeArc g i j).catattr = g.catattr :=
  update_catattr _ i j false

theorem toggleArc_Out (g : Digraph) (i j : ℕ) (bv : Bool) (a b : ℕ) :
    (updateTwoPathMatrices
        { g with G := fset g.G i j bv, Grev := fset g.Grev j i bv } i j bv).OutTwoPathMatrix a b =
      g.OutTwoPathMatrix a b +
      ((if a < g.n ∧ ¬(a = i ∨ a = j) ∧ fset g.G i j bv i a = true ∧ b = j
         then (if bv then (1:ℤ) else -1) else 0) +
       (if b < g.n ∧ ¬(b = i ∨ b = j) ∧ fset g.G i j bv i b = true ∧ a = j
         then (if bv then (1:ℤ) else -1) else 0)) := by
  rw [update_Out]

theorem toggleArc_In (g : Digraph) (i j : ℕ) (bv : Bool) (a b : ℕ) :
    (updateTwoPathMatrices
        { g with G := fset g.G i j bv, Grev := fset g.Grev j i bv } i j bv).InTwoPathMatrix a b =
      g.InTwoPathMatrix a b +
      ((if a < g.n ∧ ¬(a = i ∨ a = j) ∧ fset g.G i j bv a j = true ∧ b = i
         then (if bv then (1:ℤ) else -1) else 0) +
       (if b < g.n ∧ ¬(b = i ∨ b = j) ∧ fset g.G i j bv b j = true ∧ a = i
         then (if bv then (1:ℤ) else -1) else 0)) := by
  rw [update_In]

theorem toggleArc_Mix (g : Digraph) (i j : ℕ) (bv : Bool) (a b : ℕ) :
    (updateTwoPathMatrices
        { g with G := fset g.G i j bv, Grev := fset g.Grev j i bv } i j bv).MixTwoPathMatrix a b =
      g.MixTwoPathMatrix a b +
      ((if a < g.n ∧ ¬(a = i ∨ a = j) ∧ b = j
         then (if fset g.G i j bv a i = true then (1:ℤ) else 0) * (if bv then (1:ℤ) else -1) else 0) +
       (if b < g.n ∧ ¬(b = i ∨ b = j) ∧ a = i
         then (if fset g.G i j bv j b = true then (1:ℤ) else 0) * (if bv then (1:ℤ) else -1) else 0)) := by
  rw [update_Mix]

end Digraph

namespace Digraph

theorem insert_preserves (g : Digraph) (i j : ℕ)
    (hwf : wfDigraph g) (hm : matricesCorrect g)
    (hi : i < g.n) (hj : j < g.n) (hij : i ≠ j) (habs : g.G i j = false) :
    wfDigraph (insertArc g i j) ∧ matricesCorrect (insertArc g i j) := by
  have hirr := wf_irrefl g hwf
  have hAij : g.G i j = (!true) := by simpa using habs
  constructor
  · constructor
    · intro a b hab
      rw [insertArc_n]
      rw [insertArc_G] at hab
      unfold fset at hab
      by_cases hcase : a = i ∧ b = j
      · refine ⟨hcase.1 ▸ hi, hcase.2 ▸ hj, ?_⟩
        rw [hcase.1, hcase.2]
        exact hij
      · rw [if_neg hcase] at hab
        exact hwf.1 a b hab
    · intro a b
      rw [insertArc_G, insertArc_Grev]
      unfold fset
      rw [hwf.2 a b]
      by_cases hcase : a = j ∧ b = i
      · rw [if_pos hcase, if_pos ⟨hcase.2, hcase.1⟩]
      · rw [if_neg hcase, if_neg (fun h => hcase ⟨h.2, h.1⟩)]
  · intro u hu v hv huv
    rw [insertArc_n] at hu hv
    refine ⟨?_, ?_, ?_⟩
    · simp only [countCommonInNbr, insertArc_n, insertArc_G]
      unfold insertArc
      rw [toggleArc_Out, (hm u hu v hv huv).1,
          delta_commonIn g.G g.n i j u v true hirr hAij hi hij hu hv huv]
      unfold countCommonInNbr
      rfl
    · simp only [countCommonOutNbr, insertArc_n, insertArc_G]
      unfold insertArc
      rw [toggleArc_In, (hm u hu v hv huv).2.1,
          delta_commonOut g.G g.n i j u v true hirr hAij hj hij hu hv huv]
      unfold countCommonOutNbr
      rfl
    · simp only [countMixedTwoPath, insertArc_n, insertArc_G]
      unfold insertArc
      rw [toggleArc_Mix, (hm u hu v hv huv).2.2,
          delta_mixed g.G g.n i j u v true hirr hAij hi hj hij hu hv huv]
      unfold countMixedTwoPath
      rfl

theorem remove_preserves (g : Digraph) (i j : ℕ)
    (hwf : wfDigraph g) (hm : matricesCorrect g)
    (hi : i < g.n) (hj : j < g.n) (hij : i ≠ j) (hpres : g.G i j = true) :
    wfDigraph (removeArc g i j) ∧ matricesCorrect (removeArc g i j) := by
  have hirr := wf_irrefl g hwf
  have hAij : g.G i j = (!false) := by simpa using hpres
  constructor
  · constructor
    · intro a b hab
      rw [removeArc_n]
      rw [removeArc_G] at hab
      unfold fset at hab
      by_cases hcase : a = i ∧ b = j
      · rw [if_pos hcase] at hab
        exact absurd hab (by simp)
      · rw [if_neg hcase] at hab
        exact hwf.1 a b hab
    · intro a b
      rw [removeArc_G, removeArc_Grev]
      unfold fset
      rw [hwf.2 a b]
      by_cases hcase : a = j ∧ b = i
      · rw [if_pos hcase, if_pos ⟨hcase.2, hcase.1⟩]
      · rw [if_neg hcase, if_neg (fun h => hcase ⟨h.2, h.1⟩)]
  · intro u hu v hv huv
    rw [removeArc_n] at hu hv
    refine ⟨?_, ?_, ?_⟩
    · simp only [countCommonInNbr, removeArc_n, removeArc_G]
      unfold removeArc
      rw [toggleArc_Out, (hm u hu v hv huv).1,
          delta_commonIn g.G g.n i j u v false hirr hAij hi hij hu hv huv]
      unfold countCommonInNbr
      rfl
    · simp only [countCommonOutNbr, removeArc_n, removeArc_G]
      unfold removeArc
      rw [toggleArc_In, (hm u hu v hv huv).2.1,
          delta_commonOut g.G g.n i j u v false hirr hAij hj hij hu hv huv]
      unfold countCommonOutNbr
      rfl
    · simp only [countMixedTwoPath, removeArc_n, removeArc_G]
      unfold removeArc
      rw [toggleArc_Mix, (hm u hu v hv huv).2.2,
          delta_mixed g.G g.n i j u v false hirr hAij hi hj hij hu hv huv]
      unfold countMixedTwoPath
      rfl

theorem emptyDigraph_wf (n : ℕ) : wfDigraph (emptyDigraph n) := by
  constructor
  · intro a b hab
    exact absurd hab (by simp [emptyDigraph])
  · intro a b
    rfl

theorem emptyDigraph_correct (n : ℕ) : matricesCorrect (emptyDigraph n) := by
  intro u hu v hv huv
  refine ⟨?_, ?_, ?_⟩ <;>
    simp [emptyDigraph, countCommonInNbr, countCommonOutNbr, countMixedTwoPath]

end Digraph

namespace Digraph

theorem loadArcs_fold_ranges (n : ℕ) :
    ∀ (lines : List (ℤ × ℤ)) (g0 g : Digraph),
      List.foldlM (loadStep n) g0 lines = Except.ok g →
      ∀ p ∈ lines, 1 ≤ p.1 ∧ p.1 ≤ (n : ℤ) ∧ 1 ≤ p.2 ∧ p.2 ≤ (n : ℤ) := by
  intro lines
  induction lines with
  | nil =>
    intro g0 g _ p hp
    exact absurd hp (List.not_mem_nil p)
  | cons q rest ih =>
    intro g0 g hfold p hp
    rw [List.foldlM_cons] at hfold
    by_cases hq : 1 ≤ q.1 ∧ q.1 ≤ (n : ℤ) ∧ 1 ≤ q.2 ∧ q.2 ≤ (n : ℤ)
    · rw [show loadStep n g0 q = Except.ok (insertArc g0 (q.1 - 1).toNat (q.2 - 1).toNat) from
          if_pos hq] at hfold
      simp only [Bind.bind, Except.bind] at hfold
      rcases List.mem_cons.mp hp with rfl | hmem
      · exact hq
      · exact ih _ g hfold p hmem
    · rw [show loadStep n g0 q = Except.error "AssertionError" from if_neg hq] at hfold
      simp [Bind.bind, Except.bind] at hfold

theorem loadArcs_fold_invariant (n : ℕ) :
    ∀ (lines : List (ℤ × ℤ)) (g0 g : Digraph),
      g0.n = n →
      wfDigraph g0 →
      matricesCorrect g0 →
      (∀ p ∈ lines, p.1 ≠ p.2) →
      (∀ p ∈ lines, g0.G (p.1 - 1).toNat (p.2 - 1).toNat = false) →
      List.Pairwise (fun p q =>
        ¬((p.1 - 1).toNat = (q.1 - 1).toNat ∧ (p.2 - 1).toNat = (q.2 - 1).toNat)) lines →
      List.foldlM (loadStep n) g0 lines = Except.ok g →
      wfDigraph g ∧ matricesCorrect g ∧ g.n = n := by
  intro lines
  induction lines with
  | nil =>
    intro g0 g hn hwf hm _ _ _ hfold
    simp only [List.foldlM_nil] at hfold
    cases hfold
    exact ⟨hwf, hm, hn⟩
  | cons q rest ih =>
    intro g0 g hn hwf hm hloops habs hpair hfold
    rw [List.foldlM_cons] at hfold
    by_cases hq : 1 ≤ q.1 ∧ q.1 ≤ (n : ℤ) ∧ 1 ≤ q.2 ∧ q.2 ≤ (n : ℤ)
    · rw [show loadStep n g0 q = Except.ok (insertArc g0 (q.1 - 1).toNat (q.2 - 1).toNat) from
          if_pos hq] at hfold
      simp only [Bind.bind, Except.bind] at hfold
      obtain ⟨hq1, hq2, hq3, hq4⟩ := hq
      have hi0 : (q.1 - 1).toNat < g0.n := by omega
      have hj0 : (q.2 - 1).toNat < g0.n := by omega
      have hij0 : (q.1 - 1).toNat ≠ (q.2 - 1).toNat := by
        have := hloops q (List.mem_cons_self q rest)
        omega
      have habs0 : g0.G (q.1 - 1).toNat (q.2 - 1).toNat = false :=
        habs q (List.mem_cons_self q rest)
      obtain ⟨hwf1, hm1⟩ :=
        insert_preserves g0 (q.1 - 1).toNat (q.2 - 1).toNat hwf hm hi0 hj0 hij0 habs0
      obtain ⟨hqrest, hrest⟩ := List.pairwise_cons.mp hpair
      refine ih (insertArc g0 (q.1 - 1).toNat (q.2 - 1).toNat) g
        (by rw [insertArc_n, hn]) hwf1 hm1
        (fun p hp => hloops p (List.mem_cons_of_mem q hp))
        (fun p hp => ?_) hrest hfold
      rw [insertArc_G]
      unfold fset
      rw [if_neg]
      · exact habs p (List.mem_cons_of_mem q hp)
      · intro hcase
        exact hqrest p hp ⟨hcase.1.symm, hcase.2.symm⟩
    · rw [show loadStep n g0 q = Except.error "AssertionError" from if_neg hq] at hfold
      simp [Bind.bind, Except.bind] at hfold

end Digraph

namespace Digraph

set_option maxHeartbeats 1000000 in
theorem insert_remove_restore (g : Digraph) (i j : ℕ)
    (hG : g.G i j = true) (hR : g.Grev j i = true) :
    insertArc (removeArc g i j) i j = g := by
  have hGG : fset (fset g.G i j false) i j true = g.G := by
    funext x y
    by_cases hc : x = i ∧ y = j
    · obtain ⟨rfl, rfl⟩ := hc
      simp [fset, hG]
    · simp [fset, hc]
  have hRR : fset (fset g.Grev j i false) j i true = g.Grev := by
    funext x y
    by_cases hc : x = j ∧ y = i
    · obtain ⟨rfl, rfl⟩ := hc
      simp [fset, hR]
    · simp [fset, hc]
  apply Digraph.ext
  · rw [insertArc_n, removeArc_n]
  · rw [insertArc_G, removeArc_G, hGG]
  · rw [insertArc_Grev, removeArc_Grev, hRR]
  · funext a b
    show (insertArc (removeArc g i j) i j).OutTwoPathMatrix a b = g.OutTwoPathMatrix a b
    unfold insertArc
    rw [toggleArc_Out, removeArc_n, removeArc_G, hGG]
    unfold removeArc
    rw [toggleArc_Out]
    split_ifs <;> simp_all [fset] <;> omega
  · funext a b
    show (insertArc (removeArc g i j) i j).InTwoPathMatrix a b = g.InTwoPathMatrix a b
    unfold insertArc
    rw [toggleArc_In, removeArc_n, removeArc_G, hGG]
    unfold removeArc
    rw [toggleArc_In]
    split_ifs <;> simp_all [fset] <;> omega
  · funext a b
    show (insertArc (removeArc g i j) i j).MixTwoPathMatrix a b = g.MixTwoPathMatrix a b
    unfold insertArc
    rw [toggleArc_Mix, removeArc_n, removeArc_G, hGG]
    unfold removeArc
    rw [toggleArc_Mix]
    split_ifs <;> simp_all [fset] <;> omega
  · rw [insertArc_binattr, removeArc_binattr]
  · rw [insertArc_catattr, removeArc_catattr]

end Digraph

theorem samplerStep_graph_false (changestats_func_list : List (Digraph → ℕ → ℕ → ℚ))
    (theta : List ℚ) (st : SamplerState) (d : Draw)
    (hsync : ∀ a b, st.graph.Grev a b = st.graph.G b a) :
    (samplerStep changestats_func_list theta false st d).graph = st.graph := by
  unfold samplerStep
  by_cases hdel : Digraph.isArc st.graph d.i d.j = true
  · have hG : st.graph.G d.i d.j = true := hdel
    have hR : st.graph.Grev d.j d.i = true := by rw [hsync]; exact hG
    cases hacc : d.accept <;>
      simp [hdel, hacc, Digraph.insert_remove_restore st.graph d.i d.j hG hR]
  · cases hacc : d.accept <;> simp [hdel, hacc]

theorem foldl_samplerStep_graph (changestats_func_list : List (Digraph → ℕ → ℕ → ℚ))
    (theta : List ℚ) (draws : ℕ → Draw) (g : Digraph)
    (hsync : ∀ a b, g.Grev a b = g.G b a) :
    ∀ (L : List ℕ) (st : SamplerState), st.graph = g →
      ((L.foldl (fun st k =>
          samplerStep changestats_func_list theta false st (draws k)) st).graph) = g := by
  intro L
  induction L with
  | nil =>
    intro st hst
    exact hst
  | cons v L ih =>
    intro st hst
    rw [List.foldl_cons]
    refine ih _ ?_
    rw [samplerStep_graph_false changestats_func_list theta st (draws v) ?_, hst]
    rw [hst]
    exact hsync

set_option maxRecDepth 100000 in
theorem BasicSampler_graph_false (g : Digraph)
    (changestats_func_list : List (Digraph → ℕ → ℕ → ℚ))
    (theta : List ℚ) (draws : ℕ → Draw)
    (hsync : ∀ a b, g.Grev a b = g.G b a) :
    (BasicSampler g changestats_func_list theta false draws).graph = g := by
  unfold BasicSampler
  exact foldl_samplerStep_graph changestats_func_list theta draws g hsync _ _ rfl

theorem range_shift_concat (t0 : ℤ) (m k : ℕ) :
    (List.range m).map (fun (x : ℕ) => t0 + (x : ℤ)) ++
      (List.range k).map (fun (x : ℕ) => t0 + (m : ℤ) + (x : ℤ)) =
    (List.range (m + k)).map (fun (x : ℕ) => t0 + (x : ℤ)) := by
  rw [List.range_add, List.map_append, List.map_map]
  congr 1
  apply List.map_congr_left
  intro x _
  simp only [Function.comp_apply]
  push_cast
  ring

theorem algSStep_trace_t (changestats_func_list : List (Digraph → ℕ → ℕ → ℚ))
    (draws : ℕ → ℕ → Draw) (M1 : ℕ) (st : AlgSState) (t : ℕ) :
    ((algSStep changestats_func_list draws M1 st t).trace).map TraceRow.t =
      st.trace.map TraceRow.t ++ [(t : ℤ) - (M1 : ℤ)] := by
  unfold algSStep
  rw [List.map_append]
  rfl

theorem foldl_algSStep_trace_t (changestats_func_list : List (Digraph → ℕ → ℕ → ℚ))
    (draws : ℕ → ℕ → Draw) (M1 : ℕ) :
    ∀ (L : List ℕ) (st : AlgSState),
      ((L.foldl (algSStep changestats_func_list draws M1) st).trace).map TraceRow.t =
        st.trace.map TraceRow.t ++ L.map (fun (t : ℕ) => (t : ℤ) - (M1 : ℤ)) := by
  intro L
  induction L with
  | nil =>
    intro st
    simp
  | cons v L ih =>
    intro st
    rw [List.foldl_cons, ih, algSStep_trace_t, List.map_cons, List.append_assoc]
    rfl

set_option maxRecDepth 100000 in
theorem algorithm_S_trace_t (g : Digraph)
    (changestats_func_list : List (Digraph → ℕ → ℕ → ℚ))
    (M1 : ℕ) (draws : ℕ → ℕ → Draw) :
    ((algorithm_S g changestats_func_list M1 draws).trace).map TraceRow.t =
      (List.range M1).map (fun (t : ℕ) => (t : ℤ) - (M1 : ℤ)) := by
  unfold algorithm_S
  rw [foldl_algSStep_trace_t]
  rfl

theorem eeInnerStep_trace_t (changestats_func_list : List (Digraph → ℕ → ℕ → ℚ))
    (D0 : List ℚ) (drawsInner : ℕ → ℕ → Draw) (st : EEInnerState) (tinner : ℕ) :
    ((eeInnerStep changestats_func_list D0 drawsInner st tinner).trace).map TraceRow.t =
      st.trace.map TraceRow.t ++ [(st.t : ℤ)] := by
  unfold eeInnerStep
  rw [List.map_append]
  rfl

theorem eeInnerStep_t (changestats_func_list : List (Digraph → ℕ → ℕ → ℚ))
    (D0 : List ℚ) (drawsInner : ℕ → ℕ → Draw) (st : EEInnerState) (tinner : ℕ) :
    (eeInnerStep changestats_func_list D0 drawsInner st tinner).t = st.t + 1 := rfl

theorem foldl_eeInnerStep_trace_t (changestats_func_list : List (Digraph → ℕ → ℕ → ℚ))
    (D0 : List ℚ) (drawsInner : ℕ → ℕ → Draw) :
    ∀ (L : List ℕ) (st : EEInnerState),
      (((L.foldl (eeInnerStep changestats_func_list D0 drawsInner) st).trace).map TraceRow.t =
        st.trace.map TraceRow.t ++
          (List.range L.length).map (fun (k : ℕ) => (st.t : ℤ) + (k : ℤ))) ∧
      (L.foldl (eeInnerStep changestats_func_list D0 drawsInner) st).t = st.t + L.length := by
  intro L
  induction L with
  | nil =>
    intro st
    simp
  | cons v L ih =>
    intro st
    constructor
    · rw [List.foldl_cons, (ih _).1, eeInnerStep_trace_t, eeInnerStep_t, List.append_assoc,
        List.length_cons]
      have h2 := range_shift_concat (st.t : ℤ) 1 L.length
      rw [Nat.add_comm L.length 1, ← h2]
      rfl
    · rw [List.foldl_cons, (ih _).2, eeInnerStep_t, List.length_cons]
      omega

theorem eeOuterStep_trace_t (changestats_func_list : List (Digraph → ℕ → ℕ → ℚ))
    (draws : ℕ → ℕ → ℕ → Draw) (M : ℕ) (stdFn : List ℚ → ℚ)
    (st : EEState) (touter : ℕ) :
    (((eeOuterStep changestats_func_list draws M stdFn st touter).trace).map TraceRow.t =
      st.trace.map TraceRow.t ++
        (List.range M).map (fun (k : ℕ) => (st.t : ℤ) + (k : ℤ))) ∧
    (eeOuterStep changestats_func_list draws M stdFn st touter).t = st.t + M := by
  unfold eeOuterStep
  dsimp only
  have h := foldl_eeInnerStep_trace_t changestats_func_list st.D0 (draws touter)
    (List.range M)
    { theta := st.theta, dzA := st.dzA, t := st.t, trace := st.trace,
      dzAtrace := st.dzAtrace, thetamatrix := [], graph := st.graph }
  dsimp only at h
  rw [List.length_range] at h
  exact ⟨h.1, h.2⟩

theorem foldl_eeOuterStep_trace_t (changestats_func_list : List (Digraph → ℕ → ℕ → ℚ))
    (draws : ℕ → ℕ → ℕ → Draw) (M : ℕ) (stdFn : List ℚ → ℚ) :
    ∀ (L : List ℕ) (st : EEState),
      (((L.foldl (eeOuterStep changestats_func_list draws M stdFn) st).trace).map TraceRow.t =
        st.trace.map TraceRow.t ++
          (List.range (L.length * M)).map (fun (k : ℕ) => (st.t : ℤ) + (k : ℤ))) ∧
      (L.foldl (eeOuterStep changestats_func_list draws M stdFn) st).t =
        st.t + L.length * M := by
  intro L
  induction L with
  | nil =>
    intro st
    simp
  | cons v L ih =>
    intro st
    have hstep := eeOuterStep_trace_t changestats_func_list draws M stdFn st v
    constructor
    · rw [List.foldl_cons, (ih _).1, hstep.1, hstep.2, List.append_assoc, List.length_cons]
      have h2 := range_shift_concat (st.t : ℤ) M (L.length * M)
      have h3 : (List.range (L.length * M)).map
            (fun (k : ℕ) => ((st.t + M : ℕ) : ℤ) + (k : ℤ)) =
          (List.range (L.length * M)).map
            (fun (k : ℕ) => (st.t : ℤ) + (M : ℤ) + (k : ℤ)) := by
        apply List.map_congr_left
        intro x _
        push_cast
        ring
      rw [h3, h2]
      congr 2
      ring
    · rw [List.foldl_cons, (ih _).2, hstep.2, List.length_cons]
      ring

set_option maxRecDepth 100000 in
theorem algorithm_EE_trace_t (g : Digraph)
    (changestats_func_list : List (Digraph → ℕ → ℕ → ℚ))
    (theta D0 : List ℚ) (Mouter M : ℕ) (draws : ℕ → ℕ → ℕ → Draw)
    (stdFn : List ℚ → ℚ) :
    ((algorithm_EE g changestats_func_list theta D0 Mouter M draws stdFn).trace).map
        TraceRow.t =
      (List.range (Mouter * M)).map (fun (k : ℕ) => (k : ℤ)) := by
  unfold algorithm_EE
  dsimp only
  have h := foldl_eeOuterStep_trace_t changestats_func_list draws M stdFn
    (List.range Mouter)
    { theta := theta, D0 := D0, dzA := List.replicate changestats_func_list.length 0,
      t := 0, trace := [], dzAtrace := [], graph := g }
  dsimp only at h
  rw [List.length_range] at h
  rw [h.1]
  simp

set_option maxRecDepth 100000 in
theorem fullThetaTrace_t (g : Digraph)
    (changestats_func_list : List (Digraph → ℕ → ℕ → ℚ))
    (M1 Mouter M : ℕ) (drawsS : ℕ → ℕ → Draw) (drawsEE : ℕ → ℕ → ℕ → Draw)
    (stdFn : List ℚ → ℚ) :
    (fullThetaTrace g changestats_func_list M1 Mouter M drawsS drawsEE stdFn).map
        TraceRow.t =
      (List.range (M1 + Mouter * M)).map (fun (r : ℕ) => (r : ℤ) - (M1 : ℤ)) := by
  unfold fullThetaTrace
  dsimp only
  rw [List.map_append, algorithm_S_trace_t, algorithm_EE_trace_t,
    List.range_add, List.map_append, List.map_map]
  congr 1
  apply List.map_congr_left
  intro x _
  simp only [Function.comp_apply]
  push_cast
  ring

theorem half_pos_q : 0 < (1 - 1/lambda0 : ℚ) := by norm_num [lambda0]

theorem half_le_one_q : (1 - 1/lambda0 : ℚ) ≤ 1 := by norm_num [lambda0]

theorem zpow_half_nonneg (m : ℤ) : 0 ≤ (1 - 1/lambda0 : ℚ) ^ m :=
  (zpow_pos half_pos_q m).le

theorem zpow_half_le_one (m : ℤ) (hm : 0 ≤ m) : (1 - 1/lambda0 : ℚ) ^ m ≤ 1 := by
  lift m to ℕ using hm
  rw [zpow_natCast]
  exact pow_le_one₀ half_pos_q.le half_le_one_q

theorem pow_half_le_one (m : ℕ) : (1 - 1/lambda0 : ℚ) ^ m ≤ 1 :=
  pow_le_one₀ half_pos_q.le half_le_one_q

namespace Digraph

theorem countCommonInNbr_nonneg (g : Digraph) (u v : ℕ) : 0 ≤ countCommonInNbr g u v := by
  apply Finset.sum_nonneg
  intro w _
  split_ifs <;> norm_num

theorem countCommonOutNbr_nonneg (g : Digraph) (u v : ℕ) : 0 ≤ countCommonOutNbr g u v := by
  apply Finset.sum_nonneg
  intro w _
  split_ifs <;> norm_num

theorem countMixedTwoPath_nonneg (g : Digraph) (u v : ℕ) : 0 ≤ countMixedTwoPath g u v := by
  apply Finset.sum_nonneg
  intro w _
  split_ifs <;> norm_num

end Digraph

theorem changeAltInStars_nonneg (g : Digraph) (i j : ℕ) : 0 ≤ changeAltInStars g i j := by
  unfold changeAltInStars
  have h := pow_half_le_one (Digraph.indegree g j)
  have h2 : (0:ℚ) < lambda0 := by norm_num [lambda0]
  nlinarith

theorem changeAltOutStars_nonneg (g : Digraph) (i j : ℕ) : 0 ≤ changeAltOutStars g i j := by
  unfold changeAltOutStars
  have h := pow_half_le_one (Digraph.outdegree g i)
  have h2 : (0:ℚ) < lambda0 := by norm_num [lambda0]
  nlinarith

theorem changeAltKTrianglesT_nonneg (g : Digraph) (i j : ℕ)
    (hm : Digraph.matricesCorrect g) (hi : i < g.n) (hj : j < g.n) (hij : i ≠ j) :
    0 ≤ changeAltKTrianglesT g i j := by
  unfold changeAltKTrianglesT
  have hmix : (0:ℤ) ≤ g.MixTwoPathMatrix i j := by
    rw [(hm i hi j hj hij).2.2]
    exact Digraph.countMixedTwoPath_nonneg g i j
  have h1 : (0:ℚ) ≤ ∑ v ∈ (Finset.range g.n).filter (fun v => g.G i v = true),
      (if v = i ∨ v = j then 0
       else if Digraph.isArc g j v then (1 - 1/lambda0) ^ (g.MixTwoPathMatrix i v) else 0) := by
    apply Finset.sum_nonneg
    intro v _
    split_ifs <;> first | exact zpow_half_nonneg _ | norm_num
  have h2 : (0:ℚ) ≤ ∑ v ∈ (Finset.range g.n).filter (fun v => g.Grev i v = true),
      (if v = i ∨ v = j then 0
       else if Digraph.isArc g v j then (1 - 1/lambda0) ^ (g.MixTwoPathMatrix v j) else 0) := by
    apply Finset.sum_nonneg
    intro v _
    split_ifs <;> first | exact zpow_half_nonneg _ | norm_num
  have h3 := zpow_half_le_one (g.MixTwoPathMatrix i j) hmix
  have h4 : (0:ℚ) < lambda0 := by norm_num [lambda0]
  nlinarith

theorem changeAltKTrianglesC_nonneg (g : Digraph) (i j : ℕ)
    (hm : Digraph.matricesCorrect g) (hi : i < g.n) (hj : j < g.n) (hij : i ≠ j) :
    0 ≤ changeAltKTrianglesC g i j := by
  unfold changeAltKTrianglesC
  have hmix : (0:ℤ) ≤ g.MixTwoPathMatrix j i := by
    rw [(hm j hj i hi (Ne.symm hij)).2.2]
    exact Digraph.countMixedTwoPath_nonneg g j i
  have h1 : (0:ℚ) ≤ ∑ v ∈ (Finset.range g.n).filter (fun v => g.Grev i v = true),
      (if v = i ∨ v = j then 0
       else if Digraph.isArc g j v then
         (1 - 1/lambda0) ^ (g.MixTwoPathMatrix i v) + (1 - 1/lambda0) ^ (g.MixTwoPathMatrix v j)
       else 0) := by
    apply Finset.sum_nonneg
    intro v _
    have ha := zpow_half_nonneg (g.MixTwoPathMatrix i v)
    have hb := zpow_half_nonneg (g.MixTwoPathMatrix v j)
    split_ifs <;> first | linarith | norm_num
  have h3 := zpow_half_le_one (g.MixTwoPathMatrix j i) hmix
  have h4 : (0:ℚ) < lambda0 := by norm_num [lambda0]
  nlinarith

theorem changeAltTwoPathsT_nonneg (g : Digraph) (i j : ℕ) : 0 ≤ changeAltTwoPathsT g i j := by
  unfold changeAltTwoPathsT
  have h1 : (0:ℚ) ≤ ∑ v ∈ (Finset.range g.n).filter (fun v => g.G j v = true),
      (if v = i ∨ v = j then 0 else (1 - 1/lambda0) ^ (g.MixTwoPathMatrix i v)) := by
    apply Finset.sum_nonneg
    intro v _
    split_ifs <;> first | exact zpow_half_nonneg _ | norm_num
  have h2 : (0:ℚ) ≤ ∑ v ∈ (Finset.range g.n).filter (fun v => g.Grev i v = true),
      (if v = i ∨ v = j then 0 else (1 - 1/lambda0) ^ (g.MixTwoPathMatrix v j)) := by
    apply Finset.sum_nonneg
    intro v _
    split_ifs <;> first | exact zpow_half_nonneg _ | norm_num
  linarith

theorem changeAltTwoPathsD_nonneg (g : Digraph) (i j : ℕ) : 0 ≤ changeAltTwoPathsD g i j := by
  unfold changeAltTwoPathsD
  apply Finset.sum_nonneg
  intro v _
  split_ifs <;> first | exact zpow_half_nonneg _ | norm_num

theorem changeAltTwoPathsTD_nonneg (g : Digraph) (i j : ℕ) : 0 ≤ changeAltTwoPathsTD g i j := by
  unfold changeAltTwoPathsTD
  have h1 := changeAltTwoPathsT_nonneg g i j
  have h2 := changeAltTwoPathsD_nonneg g i j
  linarith

/-!
Claim theorems.
-/

/-- C1 (counterexample): the claim as stated is false.  Load the graph
with arc lines 0->1, 0->2 (gOutStar).  The claim says OutTwoPath[1,2]
equals the number of nodes w with arcs 1->w and 2->w (shared
out-neighbour); the code instead maintains the shared in-neighbour count
there: the matrix holds 1 while the shared out-neighbour count is 0.
The diagonal also differs from any literal from-scratch reading: the
update loop never touches it, so OutTwoPath[1,1] stays 0 although node 1
has one in-neighbour (and the claimed shared out-neighbour reading also
fails on the diagonal at OutTwoPath[0,0] = 0 versus out-degree 2). -/
theorem C1_counterexample :
    gOutStar.OutTwoPathMatrix 1 2 = 1 ∧
    Digraph.countCommonOutNbr gOutStar 1 2 = 0 ∧
    gOutStar.OutTwoPathMatrix 1 2 ≠ Digraph.countCommonOutNbr gOutStar 1 2 ∧
    gOutStar.OutTwoPathMatrix 0 0 = 0 ∧
    Digraph.countCommonOutNbr gOutStar 0 0 = 2 ∧
    gOutStar.OutTwoPathMatrix 1 1 = 0 ∧
    Digraph.countCommonInNbr gOutStar 1 1 = 1 := by decide

/-- C1 (amended): with OutTwoPath and InTwoPath read with the code's
orientation (OutTwoPath[u,v] = number of w with w->u and w->v, i.e. the
shared in-neighbour count; InTwoPath[u,v] = number of w with u->w and
v->w; MixTwoPath[u,v] = number of w with u->w and w->v), and restricted
to off-diagonal cells u != v (diagonals stay 0), the three matrices
equal the counts recomputed from scratch: after loading a Pajek arc list
whose lines are loop-free and pairwise distinct, and after every
insertArc of an absent arc and every removeArc of a present arc between
distinct in-range nodes, on any state satisfying the same invariant. -/
theorem C1_twoPathMatrices_invariant :
    (∀ (n : ℕ) (lines : List (ℤ × ℤ)) (g : Digraph),
        (∀ p ∈ lines, p.1 ≠ p.2) →
        List.Pairwise (fun p q =>
          ¬((p.1 - 1).toNat = (q.1 - 1).toNat ∧ (p.2 - 1).toNat = (q.2 - 1).toNat)) lines →
        Digraph.loadArcs n lines = Except.ok g →
        Digraph.wfDigraph g ∧ Digraph.matricesCorrect g) ∧
    (∀ (g : Digraph) (i j : ℕ),
        Digraph.wfDigraph g → Digraph.matricesCorrect g →
        i < g.n → j < g.n → i ≠ j → g.G i j = false →
        Digraph.wfDigraph (Digraph.insertArc g i j) ∧
          Digraph.matricesCorrect (Digraph.insertArc g i j)) ∧
    (∀ (g : Digraph) (i j : ℕ),
        Digraph.wfDigraph g → Digraph.matricesCorrect g →
        i < g.n → j < g.n → i ≠ j → g.G i j = true →
        Digraph.wfDigraph (Digraph.removeArc g i j) ∧
          Digraph.matricesCorrect (Digraph.removeArc g i j)) := by
  refine ⟨?_, ?_, ?_⟩
  · intro n lines g hloops hpair hok
    have h := Digraph.loadArcs_fold_invariant n lines (Digraph.emptyDigraph n) g rfl
      (Digraph.emptyDigraph_wf n) (Digraph.emptyDigraph_correct n) hloops
      (fun p _ => rfl) hpair hok
    exact ⟨h.1, h.2.1⟩
  · intro g i j hwf hm hi hj hij habs
    exact Digraph.insert_preserves g i j hwf hm hi hj hij habs
  · intro g i j hwf hm hi hj hij hpres
    exact Digraph.remove_preserves g i j hwf hm hi hj hij hpres

/-- C1 (witness): the amended invariant applied to inserting arc 0->1
into the empty two-node graph. -/
theorem C1_twoPathMatrices_invariant_witness :
    Digraph.wfDigraph (Digraph.insertArc (Digraph.emptyDigraph 2) 0 1) ∧
    Digraph.matricesCorrect (Digraph.insertArc (Digraph.emptyDigraph 2) 0 1) :=
  C1_twoPathMatrices_invariant.2.1 (Digraph.emptyDigraph 2) 0 1
    (Digraph.emptyDigraph_wf 2) (Digraph.emptyDigraph_correct 2)
    (by decide) (by decide) (by decide) rfl

/-- C2: a BasicSampler call with performMove = false returns the graph
in a state identical to the input: both adjacency structures, all three
two-path matrices, and the attribute tables are unchanged whatever the
statistics, theta and random draws were (every delete performed to
evaluate the change statistics is reinserted, and adds are never
applied).  The only hypothesis is the structural invariant that Grev is
the transpose of G, which every reachable state satisfies. -/
theorem C2_sampler_noMove_preserves_state (g : Digraph)
    (changestats_func_list : List (Digraph → ℕ → ℕ → ℚ))
    (theta : List ℚ) (draws : ℕ → Draw)
    (hsync : ∀ a b, g.Grev a b = g.G b a) :
    (BasicSampler g changestats_func_list theta false draws).graph = g :=
  BasicSampler_graph_false g changestats_func_list theta draws hsync

/-- C2 (witness): the no-move sampler run on the empty two-node graph
with no statistics returns the identical state. -/
theorem C2_sampler_noMove_preserves_state_witness :
    (BasicSampler (Digraph.emptyDigraph 2) [] [] false (drawsAccept01 0)).graph =
      Digraph.emptyDigraph 2 :=
  C2_sampler_noMove_preserves_state (Digraph.emptyDigraph 2) [] [] (drawsAccept01 0)
    (fun _ _ => rfl)

/-- C3: on every toggle of arc i->j the adjacency mutation is applied
first (the result's G and Grev are the dictionary updates of the inputs)
and the three two-path matrices change exactly by the per-node rule with
sign s (+1 for insertArc, -1 for removeArc), every arc-existence test
reading the post-toggle adjacency: for each node v of 0..n-1 outside
{i,j}, OutTwoPath[v,j] and OutTwoPath[j,v] change by s iff arc i->v
exists, InTwoPath[v,i] and InTwoPath[i,v] change by s iff arc v->j
exists, MixTwoPath[v,j] changes by s times the indicator of v->i, and
MixTwoPath[i,v] by s times the indicator of j->v; no other cell changes
(the closed forms below give the total change of an arbitrary cell
(a,b)). -/
theorem C3_toggle_update_rule (g : Digraph) (i j : ℕ) :
    ((Digraph.insertArc g i j).G = fset g.G i j true ∧
     (Digraph.insertArc g i j).Grev = fset g.Grev j i true ∧
     (∀ a b, (Digraph.insertArc g i j).OutTwoPathMatrix a b =
        g.OutTwoPathMatrix a b +
        ((if a < g.n ∧ ¬(a = i ∨ a = j) ∧
              Digraph.isArc (Digraph.insertArc g i j) i a = true ∧ b = j
            then (1:ℤ) else 0) +
         (if b < g.n ∧ ¬(b = i ∨ b = j) ∧
              Digraph.isArc (Digraph.insertArc g i j) i b = true ∧ a = j
            then (1:ℤ) else 0))) ∧
     (∀ a b, (Digraph.insertArc g i j).InTwoPathMatrix a b =
        g.InTwoPathMatrix a b +
        ((if a < g.n ∧ ¬(a = i ∨ a = j) ∧
              Digraph.isArc (Digraph.insertArc g i j) a j = true ∧ b = i
            then (1:ℤ) else 0) +
         (if b < g.n ∧ ¬(b = i ∨ b = j) ∧
              Digraph.isArc (Digraph.insertArc g i j) b j = true ∧ a = i
            then (1:ℤ) else 0))) ∧
     (∀ a b, (Digraph.insertArc g i j).MixTwoPathMatrix a b =
        g.MixTwoPathMatrix a b +
        ((if a < g.n ∧ ¬(a = i ∨ a = j) ∧ b = j
            then (if Digraph.isArc (Digraph.insertArc g i j) a i = true then (1:ℤ) else 0) * 1
            else 0) +
         (if b < g.n ∧ ¬(b = i ∨ b = j) ∧ a = i
            then (if Digraph.isArc (Digraph.insertArc g i j) j b = true then (1:ℤ) else 0) * 1
            else 0)))) ∧
    ((Digraph.removeArc g i j).G = fset g.G i j false ∧
     (Digraph.removeArc g i j).Grev = fset g.Grev j i false ∧
     (∀ a b, (Digraph.removeArc g i j).OutTwoPathMatrix a b =
        g.OutTwoPathMatrix a b +
        ((if a < g.n ∧ ¬(a = i ∨ a = j) ∧
              Digraph.isArc (Digraph.removeArc g i j) i a = true ∧ b = j
            then (-1:ℤ) else 0) +
         (if b < g.n ∧ ¬(b = i ∨ b = j) ∧
              Digraph.isArc (Digraph.removeArc g i j) i b = true ∧ a = j
            then (-1:ℤ) else 0))) ∧
     (∀ a b, (Digraph.removeArc g i j).InTwoPathMatrix a b =
        g.InTwoPathMatrix a b +
        ((if a < g.n ∧ ¬(a = i ∨ a = j) ∧
              Digraph.isArc (Digraph.removeArc g i j) a j = true ∧ b = i
            then (-1:ℤ) else 0) +
         (if b < g.n ∧ ¬(b = i ∨ b = j) ∧
              Digraph.isArc (Digraph.removeArc g i j) b j = true ∧ a = i
            then (-1:ℤ) else 0))) ∧
     (∀ a b, (Digraph.removeArc g i j).MixTwoPathMatrix a b =
        g.MixTwoPathMatrix a b +
        ((if a < g.n ∧ ¬(a = i ∨ a = j) ∧ b = j
            then (if Digraph.isArc (Digraph.removeArc g i j) a i = true then (1:ℤ) else 0) * -1
            else 0) +
         (if b < g.n ∧ ¬(b = i ∨ b = j) ∧ a = i
            then (if Digraph.isArc (Digraph.removeArc g i j) j b = true then (1:ℤ) else 0) * -1
            else 0)))) := by
  refine ⟨⟨Digraph.insertArc_G g i j, Digraph.insertArc_Grev g i j, ?_, ?_, ?_⟩,
          ⟨Digraph.removeArc_G g i j, Digraph.removeArc_Grev g i j, ?_, ?_, ?_⟩⟩
  · intro a b
    simp only [Digraph.isArc, Digraph.insertArc_G]
    exact Digraph.toggleArc_Out g i j true a b
  · intro a b
    simp only [Digraph.isArc, Digraph.insertArc_G]
    exact Digraph.toggleArc_In g i j true a b
  · intro a b
    simp only [Digraph.isArc, Digraph.insertArc_G]
    exact Digraph.toggleArc_Mix g i j true a b
  · intro a b
    simp only [Digraph.isArc, Digraph.removeArc_G]
    exact Digraph.toggleArc_Out g i j false a b
  · intro a b
    simp only [Digraph.isArc, Digraph.removeArc_G]
    exact Digraph.toggleArc_In g i j false a b
  · intro a b
    simp only [Digraph.isArc, Digraph.removeArc_G]
    exact Digraph.toggleArc_Mix g i j false a b

theorem gInStar_sync : ∀ a b, gInStar.Grev a b = gInStar.G b a := by
  have h1 := Digraph.insert_preserves (Digraph.emptyDigraph 3) 0 2
    (Digraph.emptyDigraph_wf 3) (Digraph.emptyDigraph_correct 3)
    (by decide) (by decide) (by decide) rfl
  have h2 := Digraph.insert_preserves (Digraph.insertArc (Digraph.emptyDigraph 3) 0 2) 1 2
    h1.1 h1.2 (by decide) (by decide) (by decide) (by decide)
  exact h2.1.2

/-- C4 (counterexample): the claim's formula (both sum arms testing arc
v->j) disagrees with the code on the graph with arcs 0->2, 1->2 at
candidate (0,1): the code's first arm tests j->v, finds 1->2, and
returns 1; the claimed formula's first arm tests 2->1, finds nothing,
and returns 0. -/
theorem C4_counterexample :
    changeAltKTrianglesT gInStar 0 1 = 1 ∧
    changeAltKTrianglesT_claimFormula gInStar 0 1 = 0 ∧
    changeAltKTrianglesT gInStar 0 1 ≠ changeAltKTrianglesT_claimFormula gInStar 0 1 := by
  have hn : gInStar.n = 3 := by decide
  have hG00 : gInStar.G 0 0 = false := by decide
  have hG01 : gInStar.G 0 1 = false := by decide
  have hG02 : gInStar.G 0 2 = true := by decide
  have hG10 : gInStar.G 1 0 = false := by decide
  have hG12 : gInStar.G 1 2 = true := by decide
  have hG20 : gInStar.G 2 0 = false := by decide
  have hG21 : gInStar.G 2 1 = false := by decide
  have hR00 : gInStar.Grev 0 0 = false := by decide
  have hR01 : gInStar.Grev 0 1 = false := by decide
  have hR02 : gInStar.Grev 0 2 = false := by decide
  have hM01 : gInStar.MixTwoPathMatrix 0 1 = 0 := by decide
  have hM02 : gInStar.MixTwoPathMatrix 0 2 = 0 := by decide
  have hfilter1 : (Finset.range gInStar.n).filter (fun v => gInStar.G 0 v = true) = {2} := by
    decide
  have hfilter2 : (Finset.range gInStar.n).filter (fun v => gInStar.Grev 0 v = true) = ∅ := by
    decide
  refine ⟨?_, ?_, ?_⟩
  · unfold changeAltKTrianglesT
    rw [hfilter1, hfilter2, Finset.sum_singleton, Finset.sum_empty]
    simp only [Digraph.isArc, hG12, hM01, hM02]
    norm_num [lambda0]
  · unfold changeAltKTrianglesT_claimFormula
    rw [hfilter1, hfilter2, Finset.sum_singleton, Finset.sum_empty]
    simp only [Digraph.isArc, hG21, hM01]
    norm_num [lambda0]
  · unfold changeAltKTrianglesT changeAltKTrianglesT_claimFormula
    rw [hfilter1, hfilter2, Finset.sum_singleton, Finset.sum_empty]
    simp [Digraph.isArc, hG12, hG21, hM01, hM02, lambda0]

/-- C4 (amended): the AltKTrianglesT change statistic at (i,j) is the
sum of an arm over v in Out(i) excluding i,j with the test j->v and
summand (1-1/lambda)^Mix[i,v], an arm over v in In(i) excluding i,j with
the test v->j and summand (1-1/lambda)^Mix[v,j], plus
lambda*(1-(1-1/lambda)^Mix[i,j]); only the first arm's test differs from
the claim, which wrote v->j for both arms.  Stated over the adjacency G
alone, under the invariant that Grev is the transpose of G. -/
theorem C4_changeAltKTrianglesT_formula (g : Digraph) (i j : ℕ)
    (hsync : ∀ a b, g.Grev a b = g.G b a) :
    changeAltKTrianglesT g i j =
      (∑ v ∈ (Finset.range g.n).filter
          (fun v => g.G i v = true ∧ v ≠ i ∧ v ≠ j ∧ g.G j v = true),
        (1 - 1/lambda0) ^ (g.MixTwoPathMatrix i v)) +
      (∑ v ∈ (Finset.range g.n).filter
          (fun v => g.G v i = true ∧ v ≠ i ∧ v ≠ j ∧ g.G v j = true),
        (1 - 1/lambda0) ^ (g.MixTwoPathMatrix v j)) +
      lambda0 * (1 - (1 - 1/lambda0) ^ (g.MixTwoPathMatrix i j)) := by
  unfold changeAltKTrianglesT
  congr 1
  congr 1
  · rw [Finset.sum_filter, Finset.sum_filter]
    apply Finset.sum_congr rfl
    intro v _
    by_cases h1 : g.G i v = true <;> by_cases h2 : v = i ∨ v = j <;>
      by_cases h3 : Digraph.isArc g j v = true <;>
        simp_all [Digraph.isArc] <;> split_ifs <;> simp_all <;> tauto
  · rw [Finset.sum_filter, Finset.sum_filter]
    apply Finset.sum_congr rfl
    intro v _
    rw [hsync i v]
    by_cases h1 : g.G v i = true <;> by_cases h2 : v = i ∨ v = j <;>
      by_cases h3 : Digraph.isArc g v j = true <;>
        simp_all [Digraph.isArc] <;> split_ifs <;> simp_all <;> tauto

/-- C4 (witness): the amended formula evaluated on the graph with arcs
0->2 and 1->2 at candidate arc (0,1). -/
theorem C4_changeAltKTrianglesT_formula_witness :
    changeAltKTrianglesT gInStar 0 1 =
      (∑ v ∈ (Finset.range gInStar.n).filter
          (fun v => gInStar.G 0 v = true ∧ v ≠ 0 ∧ v ≠ 1 ∧ gInStar.G 1 v = true),
        (1 - 1/lambda0) ^ (gInStar.MixTwoPathMatrix 0 v)) +
      (∑ v ∈ (Finset.range gInStar.n).filter
          (fun v => gInStar.G v 0 = true ∧ v ≠ 0 ∧ v ≠ 1 ∧ gInStar.G v 1 = true),
        (1 - 1/lambda0) ^ (gInStar.MixTwoPathMatrix v 1)) +
      lambda0 * (1 - (1 - 1/lambda0) ^ (gInStar.MixTwoPathMatrix 0 1)) :=
  C4_changeAltKTrianglesT_formula gInStar 0 1 gInStar_sync

/-- C5: every change statistic of the library is non-negative, for any
pair of distinct in-range nodes, on any graph state whose two-path
matrices satisfy the maintained invariant and whose binary attributes
are 0 or 1 — so the sampler's assertion changestats[l] >= 0 never
fails. -/
theorem C5_change_statistics_nonneg (g : Digraph) (i j : ℕ)
    (hm : Digraph.matricesCorrect g)
    (hbin : ∀ v, g.binattr v = 0 ∨ g.binattr v = 1)
    (hi : i < g.n) (hj : j < g.n) (hij : i ≠ j) :
    0 ≤ changeArc g i j ∧
    0 ≤ changeReciprocity g i j ∧
    0 ≤ changeAltInStars g i j ∧
    0 ≤ changeAltOutStars g i j ∧
    0 ≤ changeAltKTrianglesT g i j ∧
    0 ≤ changeAltKTrianglesC g i j ∧
    0 ≤ changeAltTwoPathsT g i j ∧
    0 ≤ changeAltTwoPathsD g i j ∧
    0 ≤ changeAltTwoPathsTD g i j ∧
    0 ≤ changeSender g i j ∧
    0 ≤ changeReceiver g i j ∧
    0 ≤ changeInteraction g i j ∧
    0 ≤ changeMatching g i j ∧
    0 ≤ changeMatchingReciprocity g i j ∧
    0 ≤ changeMismatching g i j ∧
    0 ≤ changeMismatchingReciprocity g i j := by
  refine ⟨by norm_num [changeArc], ?_, changeAltInStars_nonneg g i j,
    changeAltOutStars_nonneg g i j,
    changeAltKTrianglesT_nonneg g i j hm hi hj hij,
    changeAltKTrianglesC_nonneg g i j hm hi hj hij,
    changeAltTwoPathsT_nonneg g i j, changeAltTwoPathsD_nonneg g i j,
    changeAltTwoPathsTD_nonneg g i j, ?_, ?_, ?_, ?_, ?_, ?_, ?_⟩
  · unfold changeReciprocity
    split_ifs <;> norm_num
  · unfold changeSender
    rcases hbin i with h | h <;> rw [h] <;> norm_num
  · unfold changeReceiver
    rcases hbin j with h | h <;> rw [h] <;> norm_num
  · unfold changeInteraction
    rcases hbin i with h | h <;> rcases hbin j with h2 | h2 <;> rw [h, h2] <;> norm_num
  · unfold changeMatching
    split_ifs <;> norm_num
  · unfold changeMatchingReciprocity
    split_ifs <;> norm_num
  · unfold changeMismatching
    split_ifs <;> norm_num
  · unfold changeMismatchingReciprocity
    split_ifs <;> norm_num

/-- C5 (witness): all sixteen change statistics at (0,1) on the empty
two-node graph with all binary attributes 1. -/
theorem C5_change_statistics_nonneg_witness :
    0 ≤ changeArc gTwoAttr 0 1 ∧
    0 ≤ changeReciprocity gTwoAttr 0 1 ∧
    0 ≤ changeAltInStars gTwoAttr 0 1 ∧
    0 ≤ changeAltOutStars gTwoAttr 0 1 ∧
    0 ≤ changeAltKTrianglesT gTwoAttr 0 1 ∧
    0 ≤ changeAltKTrianglesC gTwoAttr 0 1 ∧
    0 ≤ changeAltTwoPathsT gTwoAttr 0 1 ∧
    0 ≤ changeAltTwoPathsD gTwoAttr 0 1 ∧
    0 ≤ changeAltTwoPathsTD gTwoAttr 0 1 ∧
    0 ≤ changeSender gTwoAttr 0 1 ∧
    0 ≤ changeReceiver gTwoAttr 0 1 ∧
    0 ≤ changeInteraction gTwoAttr 0 1 ∧
    0 ≤ changeMatching gTwoAttr 0 1 ∧
    0 ≤ changeMatchingReciprocity gTwoAttr 0 1 ∧
    0 ≤ changeMismatching gTwoAttr 0 1 ∧
    0 ≤ changeMismatchingReciprocity gTwoAttr 0 1 :=
  C5_change_statistics_nonneg gTwoAttr 0 1
    (by unfold Digraph.matricesCorrect; decide)
    (fun _ => Or.inr rfl) (by decide) (by decide) (by decide)

theorem samplerStep_receiver_zero (theta : List ℚ) (st : SamplerState) (d : Draw)
    (hb : ∀ x, st.graph.binattr x = 0)
    (ha : st.addChangeStats = [0]) (hd : st.delChangeStats = [0]) :
    ((samplerStep [changeReceiver] theta false st d).addChangeStats = [0]) ∧
    ((samplerStep [changeReceiver] theta false st d).delChangeStats = [0]) ∧
    (∀ x, (samplerStep [changeReceiver] theta false st d).graph.binattr x = 0) := by
  unfold samplerStep
  by_cases hdel : Digraph.isArc st.graph d.i d.j = true <;> cases hacc : d.accept <;>
    simp [hdel, hacc, changeReceiver, Digraph.removeArc_binattr,
      Digraph.insertArc_binattr, hb, ha, hd]

theorem foldl_samplerStep_receiver_zero (theta : List ℚ) (draws : ℕ → Draw) :
    ∀ (L : List ℕ) (st : SamplerState),
      (∀ x, st.graph.binattr x = 0) →
      st.addChangeStats = [0] → st.delChangeStats = [0] →
      ((L.foldl (fun st k =>
          samplerStep [changeReceiver] theta false st (draws k)) st).addChangeStats = [0]) ∧
      ((L.foldl (fun st k =>
          samplerStep [changeReceiver] theta false st (draws k)) st).delChangeStats = [0]) := by
  intro L
  induction L with
  | nil =>
    intro st _ ha hd
    exact ⟨ha, hd⟩
  | cons v L ih =>
    intro st hb ha hd
    rw [List.foldl_cons]
    have h := samplerStep_receiver_zero theta st (draws v) hb ha hd
    exact ih _ h.2.2 h.1 h.2.1

set_option maxRecDepth 100000 in
theorem BasicSampler_receiver_zero (g : Digraph) (theta : List ℚ) (draws : ℕ → Draw)
    (hb : ∀ x, g.binattr x = 0) :
    ((BasicSampler g [changeReceiver] theta false draws).addChangeStats = [0]) ∧
    ((BasicSampler g [changeReceiver] theta false draws).delChangeStats = [0]) := by
  unfold BasicSampler
  dsimp only
  exact foldl_samplerStep_receiver_zero theta draws (List.range sampler_m) _ hb rfl rfl

/-- C6 (amended): the two guarded divisions of the step-size
calculations are safe: in Algorithm S the da computation divides by
sumChangeStats^2 only under the sumChangeStats != 0 test and returns 0
otherwise, and in Algorithm EE the mean used as the DD divisor is
guarded so that its magnitude is at least 1; but the unguarded
divisions — Dmean = sampler_m / D0 at the end of Algorithm S and the
rescale compC / DD of Algorithm EE — are not covered by these guards
(see the counterexample, where D0 = 0 on return from Algorithm S). -/
theorem C6_guarded_divisions (s m : ℚ) :
    (s = 0 → daS s = 0) ∧
    (s ≠ 0 → daS s = ACA_S / s ^ 2 ∧ s ^ 2 ≠ 0) ∧
    1 ≤ |muGuard m| := by
  refine ⟨fun hs => by simp [daS, hs], fun hs => ⟨by simp [daS, hs], pow_ne_zero 2 hs⟩, ?_⟩
  unfold muGuard
  split_ifs with h
  · norm_num
  · exact not_lt.mp h

/-- C6 (witness): the guards at sumChangeStats = 0 and mean = 0. -/
theorem C6_guarded_divisions_witness :
    ((0:ℚ) = 0 → daS 0 = 0) ∧
    ((0:ℚ) ≠ 0 → daS 0 = ACA_S / (0:ℚ) ^ 2 ∧ (0:ℚ) ^ 2 ≠ 0) ∧
    1 ≤ |muGuard 0| :=
  C6_guarded_divisions 0 0

/-- C6 (counterexample): an execution of Algorithm S in which a division
of the D computation has divisor zero.  With the single statistic
Receiver on a graph whose binary attributes are all 0, every change
statistic is 0, so dzA stays 0 and D0 is still 0 when the final
Dmean = sampler_m / D0 elementwise division is performed: its divisor is
0 (the trace length confirms the M1 = 1 iteration ran).  The
acceptance draws are all true, which is the forced outcome since
theta = 0 gives total = 0 and u < exp(0) = 1 always holds. -/
theorem C6_counterexample :
    ((algorithm_S (Digraph.emptyDigraph 2) [changeReceiver] 1 drawsAccept01).D0 = [0]) ∧
    ((algorithm_S (Digraph.emptyDigraph 2) [changeReceiver] 1 drawsAccept01).Dmean =
      [(sampler_m : ℚ) / 0]) ∧
    ((algorithm_S (Digraph.emptyDigraph 2) [changeReceiver] 1 drawsAccept01).trace.length = 1) := by
  have h := BasicSampler_receiver_zero (Digraph.emptyDigraph 2)
    (List.replicate (List.length ([changeReceiver] : List (Digraph → ℕ → ℕ → ℚ))) 0)
    (drawsAccept01 0) (fun _ => rfl)
  unfold algorithm_S
  dsimp only
  rw [show List.range 1 = [0] from rfl, List.foldl_cons, List.foldl_nil]
  unfold algSStep
  dsimp only
  rw [h.1, h.2]
  refine ⟨?_, ?_, ?_⟩ <;> simp [List.replicate]

/-- C8 (counterexample): the loader does not require i != j.  A Pajek
arc line "1 1" (a self-loop) passes the range assertion, loading
succeeds, and the self-loop arc 0->0 is inserted into the graph — the
claim says such a line is rejected and never inserted. -/
theorem C8_counterexample :
    Digraph.loadSucceeds 2 [(1, 1)] = true ∧
    Digraph.arcInLoaded 2 [(1, 1)] 0 0 = true := by decide

/-- C8 (amended): every arc line of a load that completes satisfies the
range conditions 1 <= i <= n and 1 <= j <= n — a line violating them
fails the assertion and aborts the load before estimation — but the
loader checks nothing else: i = j is not rejected (see the
counterexample). -/
theorem C8_loader_range_assertion (n : ℕ) (lines : List (ℤ × ℤ)) (g : Digraph)
    (hok : Digraph.loadArcs n lines = Except.ok g) :
    ∀ p ∈ lines, 1 ≤ p.1 ∧ p.1 ≤ (n : ℤ) ∧ 1 ≤ p.2 ∧ p.2 ≤ (n : ℤ) :=
  Digraph.loadArcs_fold_ranges n lines (Digraph.emptyDigraph n) g hok

/-- C8 (witness): the range conditions extracted from the successful
one-line load of arc 1->2 into a two-node graph. -/
theorem C8_loader_range_assertion_witness :
    1 ≤ ((1:ℤ), (2:ℤ)).1 ∧ ((1:ℤ), (2:ℤ)).1 ≤ ((2:ℕ) : ℤ) ∧
    1 ≤ ((1:ℤ), (2:ℤ)).2 ∧ ((1:ℤ), (2:ℤ)).2 ≤ ((2:ℕ) : ℤ) :=
  C8_loader_range_assertion 2 [((1:ℤ), (2:ℤ))]
    (Digraph.insertArc (Digraph.emptyDigraph 2) 0 1) rfl
    ((1:ℤ), (2:ℤ)) (List.mem_singleton.mpr rfl)

/-- C9: a complete run writes, after the header line, exactly
M1 + Mouter*M data rows to the theta trace file, whose t values are, in
row order, r - M1 for row index r — that is, the negative values
-M1..-1 during Algorithm S followed by 0..Mouter*M-1 during Algorithm
EE, strictly increasing across the whole outer-by-inner iteration
space.  This holds for every graph, statistic list, draw streams and
model of np.std. -/
theorem C9_theta_trace_rows (g : Digraph)
    (changestats_func_list : List (Digraph → ℕ → ℕ → ℚ))
    (M1 Mouter M : ℕ) (drawsS : ℕ → ℕ → Draw) (drawsEE : ℕ → ℕ → ℕ → Draw)
    (stdFn : List ℚ → ℚ) :
    (fullThetaTrace g changestats_func_list M1 Mouter M drawsS drawsEE stdFn).length =
      M1 + Mouter * M ∧
    (fullThetaTrace g changestats_func_list M1 Mouter M drawsS drawsEE stdFn).map
        TraceRow.t =
      (List.range (M1 + Mouter * M)).map (fun (r : ℕ) => (r : ℤ) - (M1 : ℤ)) := by
  have h := fullThetaTrace_t g changestats_func_list M1 Mouter M drawsS drawsEE stdFn
  constructor
  · have hlen := congrArg List.length h
    simpa using hlen
  · exact h

/-- C10: removeArc on an absent arc between two distinct in-range nodes
raises KeyError from the out-adjacency pop, before any mutation: the
error carries the state exactly as it was — both adjacencies and all
three two-path matrices untouched. -/
theorem C10_removeArc_absent_raises (g : Digraph) (i j : ℕ)
    (hi : i < g.n) (hj : j < g.n) (hij : i ≠ j) (habs : g.G i j = false) :
    Digraph.removeArcE g i j = Except.error ("KeyError", g) := by
  unfold Digraph.removeArcE
  rw [if_neg]
  simp [habs]

/-- C10 (witness): removing the absent arc 0->1 from the empty two-node
graph errors with the untouched state. -/
theorem C10_removeArc_absent_raises_witness :
    Digraph.removeArcE (Digraph.emptyDigraph 2) 0 1 =
      Except.error ("KeyError", Digraph.emptyDigraph 2) :=
  C10_removeArc_absent_raises (Digraph.emptyDigraph 2) 0 1
    (by decide) (by decide) (by decide) rfl

end EstimNet
